import Mathlib

/-!
# Verification of `server.js`: embedded-JSON extraction and record extraction

Shallow embedding of `extractYtInitialData` and `extractVideos` of `src/server.js`.

* A JavaScript string is the list of its UTF-16 code units (`List Nat`); `html[i]`,
  `indexOf` and `slice` all work on code units. The code units that matter are written
  as numbers: 34 is the double quote, 92 the backslash, 123 and 125 the opening and the
  closing brace, 91 and 93 the brackets, 58 the colon, 44 the comma.
* A JavaScript value is a `JSValue`; a thrown exception is `none` in `Option`.
* `JSON.parse` is the platform function of ECMA-262 / ECMA-404; it is modelled by a
  character-driven push-down recogniser (`JSON.parse`).
-/

namespace Server

/-! ## JavaScript values -/

/-- UTF-16 code units of a text (surrogate pairs for characters above U+FFFF). -/
def utf16 (s : String) : List Nat :=
  s.toList.flatMap fun c =>
    if c.toNat < 65536 then [c.toNat]
    else [55296 + (c.toNat - 65536) / 1024, 56320 + (c.toNat - 65536) % 1024]

/-- A JSON number literal kept as an exact decimal `(-1)^neg * mant * 10^exp`.
JavaScript rounds this value to binary64; the only rounding-dependent question asked
here, whether the result is zero, is answered exactly by `JSNumber.isZero`. -/
structure JSNumber where
  neg : Bool
  mant : Nat
  exp : Int
deriving DecidableEq, Repr

/-- Whether the literal rounds to `+0` or `-0` in binary64 (round to nearest, ties to
even): exactly when its magnitude is at most `2^-1075`. -/
def JSNumber.isZero (n : JSNumber) : Bool :=
  n.mant = 0 ∨ (n.exp < 0 ∧ n.mant * 2 ^ 1075 ≤ 10 ^ n.exp.natAbs)

/-- JavaScript values reachable from parsed JSON, plus `undefined`. Objects are
association lists in insertion order with distinct keys. -/
inductive JSValue where
  | undefined
  | null
  | bool (b : Bool)
  | num (n : JSNumber)
  | str (s : List Nat)
  | arr (items : List JSValue)
  | obj (props : List (List Nat × JSValue))
deriving Repr

/-- ToBoolean. -/
def truthy : JSValue → Bool
  | .undefined => false
  | .null => false
  | .bool b => b
  | .num n => !n.isZero
  | .str s => !s.isEmpty
  | .arr _ => true
  | .obj _ => true

/-- Array.isArray. -/
def isArray : JSValue → Bool
  | .arr _ => true
  | _ => false

/-! ## String primitives -/

/-- Scan for the first occurrence of `pat` in `s`, whose first code unit has index `i`. -/
def indexOfAux (pat : List Nat) : List Nat → Nat → Option Nat
  | [], i => if pat.isEmpty then some i else none
  | c :: cs, i => if pat.isPrefixOf (c :: cs) then some i else indexOfAux pat cs (i + 1)

/-- Model of `s.indexOf(pat, pos)`; `none` stands for `-1`. -/
def indexOf (s pat : List Nat) (pos : Nat) : Option Nat :=
  indexOfAux pat (s.drop (min pos s.length)) (min pos s.length)

/-- Model of `s.slice(a, b)` for `0 ≤ a` and `0 ≤ b`. -/
def slice (s : List Nat) (a b : Nat) : List Nat :=
  (s.drop a).take (b - a)

/-! ## Model of `JSON.parse` -/

/-- Lexical tokens of JSON; strings, numbers and the three literals carry their value. -/
inductive Token where
  | lbrace | rbrace | lbrack | rbrack | colon | comma
  | value (v : JSValue)

/-- A container under construction. An object frame remembers the key awaiting its value. -/
inductive Frame where
  | arr (items : List JSValue)
  | obj (props : List (List Nat × JSValue)) (key : List Nat)

/-- What the grammar allows next. -/
inductive Expect where
  | value
  | valueOrClose
  | keyOrClose
  | key
  | colon
  | commaOrClose
  | done (v : JSValue)

/-- Parser state: open containers (innermost first) and the expected token class. -/
structure PState where
  stack : List Frame
  expect : Expect

/-- CreateDataProperty: overwrite the value of an existing key, else append. -/
def setProp : List (List Nat × JSValue) → List Nat → JSValue → List (List Nat × JSValue)
  | [], k, v => [(k, v)]
  | (k', v') :: ps, k, v => if k' = k then (k', v) :: ps else (k', v') :: setProp ps k v

/-- A value has been completed: attach it to the innermost open container. -/
def complete (v : JSValue) : List Frame → PState
  | [] => ⟨[], .done v⟩
  | .arr items :: fs => ⟨.arr (items ++ [v]) :: fs, .commaOrClose⟩
  | .obj props k :: fs => ⟨.obj (setProp props k v) k :: fs, .commaOrClose⟩

/-- Consume one token. -/
def feed (p : PState) (t : Token) : Option PState :=
  match p.expect, t, p.stack with
  | .value, .lbrace, fs => some ⟨.obj [] [] :: fs, .keyOrClose⟩
  | .valueOrClose, .lbrace, fs => some ⟨.obj [] [] :: fs, .keyOrClose⟩
  | .value, .lbrack, fs => some ⟨.arr [] :: fs, .valueOrClose⟩
  | .valueOrClose, .lbrack, fs => some ⟨.arr [] :: fs, .valueOrClose⟩
  | .value, .value v, fs => some (complete v fs)
  | .valueOrClose, .value v, fs => some (complete v fs)
  | .keyOrClose, .value (.str k), .obj props _ :: fs => some ⟨.obj props k :: fs, .colon⟩
  | .key, .value (.str k), .obj props _ :: fs => some ⟨.obj props k :: fs, .colon⟩
  | .colon, .colon, fs => some ⟨fs, .value⟩
  | .commaOrClose, .comma, .arr items :: fs => some ⟨.arr items :: fs, .value⟩
  | .commaOrClose, .comma, .obj props k :: fs => some ⟨.obj props k :: fs, .key⟩
  | .keyOrClose, .rbrace, .obj props _ :: fs => some (complete (.obj props) fs)
  | .commaOrClose, .rbrace, .obj props _ :: fs => some (complete (.obj props) fs)
  | .valueOrClose, .rbrack, .arr items :: fs => some (complete (.arr items) fs)
  | .commaOrClose, .rbrack, .arr items :: fs => some (complete (.arr items) fs)
  | _, _, _ => none

/-- JSON whitespace: space, tab, line feed, carriage return. -/
def isWs (c : Nat) : Bool := c = 32 ∨ c = 9 ∨ c = 10 ∨ c = 13

/-- Decimal digit `0`..`9`. -/
def isDigit (c : Nat) : Bool := 48 ≤ c ∧ c ≤ 57

/-- Lower-case letter `a`..`z`. -/
def isLower (c : Nat) : Bool := 97 ≤ c ∧ c ≤ 122

/-- Code units that may occur in a number literal: digits, `+`, `-`, `.`, `e`, `E`. -/
def isNumChar (c : Nat) : Bool := isDigit c ∨ c = 43 ∨ c = 45 ∨ c = 46 ∨ c = 101 ∨ c = 69

/-- Value of a hexadecimal digit. -/
def hexDigit (c : Nat) : Option Nat :=
  if 48 ≤ c ∧ c ≤ 57 then some (c - 48)
  else if 97 ≤ c ∧ c ≤ 102 then some (c - 87)
  else if 65 ≤ c ∧ c ≤ 70 then some (c - 55)
  else none

/-- The code unit denoted by a single-character escape `\"  \\  \/  \b  \f  \n  \r  \t`. -/
def unescape (c : Nat) : Option Nat :=
  if c = 34 then some 34
  else if c = 92 then some 92
  else if c = 47 then some 47
  else if c = 98 then some 8
  else if c = 102 then some 12
  else if c = 110 then some 10
  else if c = 114 then some 13
  else if c = 116 then some 9
  else none

/-- Value of a digit string read as a decimal numeral. -/
def digitsVal (ds : List Nat) : Nat :=
  ds.foldl (fun acc d => 10 * acc + (d - 48)) 0

/-- Optional fraction part: `.` followed by at least one digit. -/
def parseFrac : List Nat → Option (List Nat × List Nat)
  | 46 :: r =>
    if (r.takeWhile isDigit).isEmpty then none
    else some (r.takeWhile isDigit, r.dropWhile isDigit)
  | r => some ([], r)

/-- Optional exponent part: `e` or `E`, an optional sign, at least one digit. -/
def parseExp : List Nat → Option (Int × List Nat)
  | [] => some (0, [])
  | c :: r =>
    if c = 101 ∨ c = 69 then
      let neg := r.head? = some 45
      let r' := if r.head? = some 45 ∨ r.head? = some 43 then r.tail else r
      if (r'.takeWhile isDigit).isEmpty then none
      else
        let e : Int := digitsVal (r'.takeWhile isDigit)
        some (if neg then -e else e, r'.dropWhile isDigit)
    else some (0, c :: r)

/-- The JSON number grammar `-? (0 | [1-9][0-9]*) (. [0-9]+)? ([eE] [+-]? [0-9]+)?` applied
to a whole lexeme. -/
def parseNumber (raw : List Nat) : Option JSNumber :=
  let neg := raw.head? = some 45
  let r1 := if raw.head? = some 45 then raw.tail else raw
  let ip := r1.takeWhile isDigit
  if ip.isEmpty ∨ (1 < ip.length ∧ ip.head? = some 48) then none
  else
    match parseFrac (r1.dropWhile isDigit) with
    | none => none
    | some (fp, r2) =>
      match parseExp r2 with
      | some (e, []) => some ⟨neg, digitsVal (ip ++ fp), e - fp.length⟩
      | _ => none

/-- The literals `true`, `false`, `null`. -/
def parseWord (raw : List Nat) : Option JSValue :=
  if raw = [116, 114, 117, 101] then some (.bool true)
  else if raw = [102, 97, 108, 115, 101] then some (.bool false)
  else if raw = [110, 117, 108, 108] then some .null
  else none

/-- Where the lexer is inside the current lexeme. -/
inductive LexMode where
  | top
  | str (acc : List Nat)
  | esc (acc : List Nat)
  | uni (acc : List Nat) (code : Nat) (seen : Nat)
  | num (raw : List Nat)
  | word (raw : List Nat)

/-- Lexer mode together with parser state. -/
structure MState where
  mode : LexMode
  p : PState

/-- One code unit read between lexemes. -/
def stepTop (p : PState) (c : Nat) : Option MState :=
  if isWs c then some ⟨.top, p⟩
  else if c = 123 then (feed p .lbrace).map (MState.mk .top)
  else if c = 125 then (feed p .rbrace).map (MState.mk .top)
  else if c = 91 then (feed p .lbrack).map (MState.mk .top)
  else if c = 93 then (feed p .rbrack).map (MState.mk .top)
  else if c = 58 then (feed p .colon).map (MState.mk .top)
  else if c = 44 then (feed p .comma).map (MState.mk .top)
  else if c = 34 then some ⟨.str [], p⟩
  else if c = 45 ∨ isDigit c then some ⟨.num [c], p⟩
  else if isLower c then some ⟨.word [c], p⟩
  else none

/-- One code unit read in any mode; `none` is a SyntaxError. -/
def step (s : MState) (c : Nat) : Option MState :=
  match s.mode with
  | .top => stepTop s.p c
  | .str acc =>
    if c = 34 then (feed s.p (.value (.str acc))).map (MState.mk .top)
    else if c = 92 then some ⟨.esc acc, s.p⟩
    else if c < 32 then none
    else some ⟨.str (acc ++ [c]), s.p⟩
  | .esc acc =>
    match unescape c with
    | some d => some ⟨.str (acc ++ [d]), s.p⟩
    | none => if c = 117 then some ⟨.uni acc 0 0, s.p⟩ else none
  | .uni acc code seen =>
    match hexDigit c with
    | none => none
    | some d =>
      if seen = 3 then some ⟨.str (acc ++ [16 * code + d]), s.p⟩
      else some ⟨.uni acc (16 * code + d) (seen + 1), s.p⟩
  | .num raw =>
    if isNumChar c then some ⟨.num (raw ++ [c]), s.p⟩
    else (parseNumber raw).bind fun n => (feed s.p (.value (.num n))).bind fun p => stepTop p c
  | .word raw =>
    if isLower c then some ⟨.word (raw ++ [c]), s.p⟩
    else (parseWord raw).bind fun v => (feed s.p (.value v)).bind fun p => stepTop p c

/-- Read a whole text from a given state. -/
def run : MState → List Nat → Option MState
  | s, [] => some s
  | s, c :: cs => (step s c).bind fun s' => run s' cs

/-- The value of a completely parsed text. -/
def PState.result (p : PState) : Option JSValue :=
  match p.expect, p.stack with
  | .done v, [] => some v
  | _, _ => none

/-- End of input: close a pending number or literal and demand a complete value. -/
def finish (s : MState) : Option JSValue :=
  match s.mode with
  | .top => s.p.result
  | .num raw => (parseNumber raw).bind fun n => (feed s.p (.value (.num n))).bind PState.result
  | .word raw => (parseWord raw).bind fun v => (feed s.p (.value v)).bind PState.result
  | _ => none

/-- Initial state: nothing read, one value expected. -/
def MState.init : MState := ⟨.top, ⟨[], .value⟩⟩

/-- Model of `JSON.parse(text)` without reviver; `none` is a thrown SyntaxError. -/
def JSON.parse (text : List Nat) : Option JSValue :=
  (run MState.init text).bind finish

/-! ## `extractYtInitialData` -/

/-- The marker list of line 21. -/
def markers : List (List Nat) :=
  [utf16 "var ytInitialData =", utf16 "window[\"ytInitialData\"] =", utf16 "window.ytInitialData ="]

/-- Lines 22-29: the first marker of the list found in `html` decides `start`
(`none` stands for `-1`). -/
def findStart (html : List Nat) : List (List Nat) → Option Nat
  | [] => none
  | m :: ms =>
    match indexOf html m 0 with
    | some idx => indexOf html [123] (idx + m.length)
    | none => findStart html ms

/-- Lines 33-46: the scan loop over the code units from index `i` on, with the loop
variables `depth`, `inString` and `prevChar` (`none` is `null`). It yields the index of
the closing brace at which line 41 cuts the text, or `none` when the loop runs off the
end of the input. Here 34 is the quote, 92 the backslash, 123 and 125 the braces. -/
def scanLoop : List Nat → Nat → Int → Bool → Option Nat → Option Nat
  | [], _, _, _, _ => none
  | ch :: rest, i, depth, inString, prevChar =>
    if ch = 34 ∧ prevChar ≠ some 92 then scanLoop rest (i + 1) depth (!inString) (some ch)
    else if inString = false then
      if ch = 123 then scanLoop rest (i + 1) (depth + 1) inString (some ch)
      else if ch = 125 then
        if depth - 1 = 0 then some i
        else scanLoop rest (i + 1) (depth - 1) inString (some ch)
      else scanLoop rest (i + 1) depth inString (some ch)
    else scanLoop rest (i + 1) depth inString (some ch)

/-- The candidate text `html.slice(start, i + 1)` that line 41 cuts out when the scan of
lines 32-46 begins at index `start`; `none` when the loop runs off the end. -/
def scanSpan (html : List Nat) (start : Nat) : Option (List Nat) :=
  match scanLoop (html.drop start) start 0 false none with
  | none => none
  | some i => some (slice html start (i + 1))

/-- The candidate text that `extractYtInitialData` hands to `JSON.parse`, if it gets
that far. -/
def isolatedSpan (html : List Nat) : Option (List Nat) :=
  match findStart html markers with
  | none => none
  | some start => scanSpan html start

/-- Model of `extractYtInitialData(html)`, lines 20-49. Every `return null` and the
`catch` branch yield `JSValue.null`. -/
def extractYtInitialData (html : List Nat) : JSValue :=
  match findStart html markers with
  | none => .null
  | some start =>
    match scanLoop (html.drop start) start 0 false none with
    | none => .null
    | some i =>
      match JSON.parse (slice html start (i + 1)) with
      | some v => v
      | none => .null

/-! ## `extractVideos` -/

/-- Own property `k` of an object given by its property list; `undefined` when absent. -/
def lookup (k : List Nat) : List (List Nat × JSValue) → JSValue
  | [] => .undefined
  | (k', v) :: ps => if k' = k then v else lookup k ps

/-- Property access `v.k`, for names `k` that no built-in prototype defines (every name
`server.js` reads is of this kind): a TypeError (`none`) on `undefined` and `null`, the own
property on an object, `undefined` on arrays and primitives. -/
def getProp (v : JSValue) (k : List Nat) : Option JSValue :=
  match v with
  | .undefined => none
  | .null => none
  | .obj props => some (lookup k props)
  | _ => some .undefined

/-- Optional chaining `v?.k`, for the same names. -/
def getPropOpt (v : JSValue) (k : List Nat) : JSValue :=
  match v with
  | .obj props => lookup k props
  | _ => .undefined

/-- Optional element access `v?.[0]`. On a string JavaScript yields its first code unit
as a one-unit string. -/
def getIndex0Opt (v : JSValue) : JSValue :=
  match v with
  | .arr (x :: _) => x
  | .str (c :: _) => .str [c]
  | .obj props => lookup [48] props
  | _ => .undefined

/-- Logical or `a || b`. -/
def jsOr (a b : JSValue) : JSValue := if truthy a then a else b

/-- Whether an object has an own property of the given name. -/
def hasOwn (k : List Nat) (props : List (List Nat × JSValue)) : Bool :=
  props.any fun kv => kv.1 = k

mutual
/-- ToString of a value, as a template literal applies it; `none` is a TypeError.
`numToString` is the platform's Number::toString on the binary64 rounding of a literal.
An array is joined with commas; a plain object yields `[object Object]` unless an own
`toString` property (never callable in parsed JSON) hides `Object.prototype.toString`. -/
def toStr (numToString : JSNumber → List Nat) : JSValue → Option (List Nat)
  | .undefined => some (utf16 "undefined")
  | .null => some (utf16 "null")
  | .bool b => some (if b then utf16 "true" else utf16 "false")
  | .num n => some (numToString n)
  | .str s => some s
  | .arr items => joinList numToString [44] items
  | .obj props => if hasOwn (utf16 "toString") props then none else some (utf16 "[object Object]")
/-- Model of `Array.prototype.join(sep)` on the elements: `undefined` and `null` give the empty
string, every other element its ToString. -/
def joinList (numToString : JSNumber → List Nat) (sep : List Nat) :
    List JSValue → Option (List Nat)
  | [] => some []
  | x :: xs =>
    match (match x with
      | .undefined => some []
      | .null => some []
      | v => toStr numToString v), joinList numToString sep xs with
    | some a, some b => some (if xs.isEmpty then a else a ++ sep ++ b)
    | _, _ => none
end

/-- One entry of `results`, lines 66-74. -/
structure VideoRecord where
  videoId : JSValue
  title : JSValue
  thumbnail : JSValue
  length : JSValue
  channel : JSValue
  embed : JSValue
  watch : JSValue

/-- Line 62: the title expression. -/
def titleOf (numToString : JSNumber → List Nat) (vr : JSValue) : Option JSValue :=
  (getProp vr (utf16 "title")).bind fun t =>
    match getPropOpt t (utf16 "runs") with
    | .arr runs =>
      (runs.mapM fun r => getProp r (utf16 "text")).bind fun texts =>
        (joinList numToString [] texts).map JSValue.str
    | _ => some (jsOr (getPropOpt t (utf16 "simpleText")) (.str []))

/-- Line 63: `(vr.thumbnail?.thumbnails || []).map(t => t.url)`. Calling `.map` on a
truthy value that is not an array is a TypeError. -/
def thumbnailsOf (vr : JSValue) : Option (List JSValue) :=
  (getProp vr (utf16 "thumbnail")).bind fun t =>
    match jsOr (getPropOpt t (utf16 "thumbnails")) (.arr []) with
    | .arr ts => ts.mapM fun t => getProp t (utf16 "url")
    | _ => none

/-- Lines 61-75: the record pushed for a truthy `videoRenderer`; `none` when an
exception is thrown on the way. -/
def buildRecord (numToString : JSNumber → List Nat) (vr : JSValue) : Option VideoRecord :=
  (getProp vr (utf16 "videoId")).bind fun videoId =>
  (titleOf numToString vr).bind fun title =>
  (thumbnailsOf vr).bind fun thumbnails =>
  let thumb := if thumbnails.length ≠ 0 then thumbnails.getLastD .undefined else .null
  (getProp vr (utf16 "lengthText")).bind fun lt =>
  let lengthText := jsOr (getPropOpt lt (utf16 "simpleText")) .null
  (getProp vr (utf16 "ownerText")).bind fun ot =>
  let channel := jsOr (getPropOpt (getIndex0Opt (getPropOpt ot (utf16 "runs"))) (utf16 "text")) .null
  if truthy videoId then
    (toStr numToString videoId).map fun id =>
      { videoId := videoId, title := title, thumbnail := thumb, length := lengthText,
        channel := channel,
        embed := .str (utf16 "https://www.youtube-nocookie.com/embed/" ++ id),
        watch := .str (utf16 "https://www.youtube.com/watch?v=" ++ id) }
  else
    some { videoId := videoId, title := title, thumbnail := thumb, length := lengthText,
           channel := channel, embed := .null, watch := .null }

/-- Lines 58-76: the inner loop over the items of one section. `results` is the array
built so far; `Except.error` carries it out when an exception is thrown. -/
def itemsLoop (numToString : JSNumber → List Nat) :
    List JSValue → List VideoRecord → Except (List VideoRecord) (List VideoRecord)
  | [], results => .ok results
  | it :: rest, results =>
    match getProp it (utf16 "videoRenderer") with
    | none => .error results
    | some vr =>
      if truthy vr then
        match buildRecord numToString vr with
        | none => .error results
        | some r => itemsLoop numToString rest (results ++ [r])
      else itemsLoop numToString rest results

/-- Lines 56-77: the outer loop over the sections. Iterating a string visits strings,
none of which has a `videoRenderer`; a truthy value that is neither an array nor a
string is not iterable. -/
def sectionsLoop (numToString : JSNumber → List Nat) :
    List JSValue → List VideoRecord → Except (List VideoRecord) (List VideoRecord)
  | [], results => .ok results
  | sec :: rest, results =>
    match jsOr (getPropOpt (getPropOpt sec (utf16 "itemSectionRenderer")) (utf16 "contents"))
        (.arr []) with
    | .arr items =>
      match itemsLoop numToString items results with
      | .ok results' => sectionsLoop numToString rest results'
      | .error results' => .error results'
    | .str _ => sectionsLoop numToString rest results
    | _ => .error results

/-- Line 54: the optional chain down to the section list. -/
def sectionList (initialData : JSValue) : JSValue :=
  getPropOpt (getPropOpt (getPropOpt (getPropOpt (getPropOpt initialData (utf16 "contents"))
    (utf16 "twoColumnSearchResultsRenderer")) (utf16 "primaryContents"))
    (utf16 "sectionListRenderer")) (utf16 "contents")

/-- Model of `extractVideos(initialData)`, lines 51-82: the `catch` returns whatever
`results` holds when the exception is thrown. -/
def extractVideos (numToString : JSNumber → List Nat) (initialData : JSValue) :
    List VideoRecord :=
  match sectionList initialData with
  | .arr contents =>
    match sectionsLoop numToString contents [] with
    | .ok results => results
    | .error results => results
  | _ => []

/-! ## The `/api/search` handler after extraction -/

/-- The blacklist of line 109. -/
def blacklist : List (List Nat) :=
  [utf16 "porn", utf16 "nude", utf16 "nsfw", utf16 "sex", utf16 "xxx", utf16 "adult",
    utf16 "erotic"]

/-- Model of `text.includes(b)`. -/
def includes (text b : List Nat) : Bool := (indexOf text b 0).isSome

/-- The text of line 112 before lower-casing, `v.title + " " + (v.channel || "")`; `none`
is the TypeError of a value that cannot be converted to a string. -/
def searchText (numToString : JSNumber → List Nat) (v : VideoRecord) : Option (List Nat) :=
  match toStr numToString v.title, toStr numToString (jsOr v.channel (.str [])) with
  | some t, some c => some (t ++ [32] ++ c)
  | _, _ => none

/-- The filter callback of lines 111-114. `toLowerCase` is the platform's
`String.prototype.toLowerCase`. -/
def passesFilter (numToString : JSNumber → List Nat) (toLowerCase : List Nat → List Nat)
    (v : VideoRecord) : Option Bool :=
  (searchText numToString v).map fun text =>
    !blacklist.any fun b => includes (toLowerCase text) b

/-- Model of `videos.filter(callback)` of line 111: the callback is applied to the
elements in order, and an exception in it ends the call. -/
def filterVideos (numToString : JSNumber → List Nat) (toLowerCase : List Nat → List Nat) :
    List VideoRecord → Option (List VideoRecord)
  | [] => some []
  | v :: vs =>
    match passesFilter numToString toLowerCase v with
    | none => none
    | some keep =>
      (filterVideos numToString toLowerCase vs).map fun rest =>
        if keep then v :: rest else rest

/-- The numbers that `parseInt` can return: `NaN`, an integer, or an infinity. -/
inductive IntegralNumber where
  | nan
  | negInf
  | int (n : Int)
  | posInf

/-- Model of `Math.min(50, x)` of line 89 for `x` returned by `parseInt`. -/
def mathMin50 : IntegralNumber → IntegralNumber
  | .nan => .nan
  | .negInf => .negInf
  | .int n => .int (min 50 n)
  | .posInf => .int 50

/-- Model of `videos.slice(0, max)` of line 116: `NaN` counts as 0, and a negative end
counts from the end of the array. -/
def sliceTo (videos : List VideoRecord) : IntegralNumber → List VideoRecord
  | .nan => []
  | .negInf => []
  | .int n => if n < 0 then videos.take (videos.length - n.natAbs) else videos.take n.toNat
  | .posInf => videos

/-- The fields `count` and `results` of the response of line 117. -/
structure SearchResponse where
  count : Nat
  results : List VideoRecord

/-- Lines 107-117 of the handler from the extracted records on, for the flag `safe` and
the value `max` of line 89: the response body, or `none` when the filter callback throws
(the handler's `catch` then answers 500 without results). -/
def respond (numToString : JSNumber → List Nat) (toLowerCase : List Nat → List Nat)
    (safe : Bool) (max : IntegralNumber) (videos : List VideoRecord) : Option SearchResponse :=
  (if safe then filterVideos numToString toLowerCase videos else some videos).map fun vs =>
    ⟨(sliceTo vs max).length, sliceTo vs max⟩

/-! ## Notions used to state and prove the properties -/

/-- Whether a frame is an object under construction. -/
def Frame.isObj : Frame → Bool
  | .obj _ _ => true
  | .arr _ => false

/-- Number of open objects on the parser stack. -/
def objCount : List Frame → Nat
  | [] => 0
  | f :: fs => (if f.isObj then 1 else 0) + objCount fs

/-- Whether the lexer is inside a string literal. -/
def LexMode.inStr : LexMode → Bool
  | .str _ => true
  | .esc _ => true
  | .uni _ _ _ => true
  | _ => false

/-- Whether the lexer has just read the backslash that starts an escape. -/
def LexMode.isEsc : LexMode → Bool
  | .esc _ => true
  | _ => false

/-- Whether a complete top-level value has been read. -/
def Expect.isDone : Expect → Bool
  | .done _ => true
  | _ => false

/-- Whether the outermost open container is an object. -/
def bottomObj : List Frame → Bool
  | [] => false
  | [f] => f.isObj
  | _ :: f :: fs => bottomObj (f :: fs)

/-- Invariant of a parse that began with an opening brace. -/
def PState.Rooted (p : PState) : Prop :=
  bottomObj p.stack = true ∨ (p.stack = [] ∧ ∃ props, p.expect = .done (.obj props))

/-- State of the scan as the specification describes it (section 4.1, step 3): brace
depth, the inside-string flag, and whether the previous code unit is an unescaped
backslash. -/
structure SpecState where
  depth : Int
  inString : Bool
  escaped : Bool

/-- One code unit of the specification's scan: an unescaped quote toggles the string
flag, braces count only outside strings, and a backslash escapes the next code unit
unless it is escaped itself. -/
def specStep (r : SpecState) (c : Nat) : SpecState where
  depth :=
    if r.inString = false ∧ c = 123 then r.depth + 1
    else if r.inString = false ∧ c = 125 then r.depth - 1
    else r.depth
  inString := if c = 34 ∧ r.escaped = false then !r.inString else r.inString
  escaped := c = 92 ∧ r.escaped = false

/-- The ways in which a code unit read between lexemes is accepted. -/
inductive TopCase (p : PState) (c : Nat) (s' : MState) : Prop
  | ws (h : c = 32 ∨ c = 9 ∨ c = 10 ∨ c = 13) (e : s' = ⟨.top, p⟩)
  | lbrace (p' : PState) (h : c = 123) (f : feed p .lbrace = some p') (e : s' = ⟨.top, p'⟩)
  | rbrace (p' : PState) (h : c = 125) (f : feed p .rbrace = some p') (e : s' = ⟨.top, p'⟩)
  | punct (p' : PState) (t : Token) (h : c = 91 ∨ c = 93 ∨ c = 58 ∨ c = 44)
      (hl : t ≠ .lbrace) (hr : t ≠ .rbrace) (f : feed p t = some p') (e : s' = ⟨.top, p'⟩)
  | quote (h : c = 34) (e : s' = ⟨.str [], p⟩)
  | num (h : c = 45 ∨ (48 ≤ c ∧ c ≤ 57)) (e : s' = ⟨.num [c], p⟩)
  | word (h : 97 ≤ c ∧ c ≤ 122) (e : s' = ⟨.word [c], p⟩)

/-- The parser state and the spec's scan state describe the same position. -/
def Sim (s : MState) (r : SpecState) : Prop :=
  r.depth = objCount s.p.stack ∧ r.inString = s.mode.inStr ∧ r.escaped = s.mode.isEsc

/-- The specification's scan state after a run of code units. -/
def specRun (r : SpecState) (w : List Nat) : SpecState := w.foldl specStep r

/-- No code unit of `w` is a closing brace outside a string at depth one. -/
def specQuiet : SpecState → List Nat → Prop
  | _, [] => True
  | r, c :: cs => ¬ (r.inString = false ∧ c = 125 ∧ r.depth = 1) ∧ specQuiet (specStep r c) cs

/-- The loop variables `depth`, `inString`, `prevChar` of lines 32-46. -/
structure ScanState where
  depth : Int
  inString : Bool
  prevChar : Option Nat

/-- One iteration of the loop body that does not return: the updates of lines 35-45. -/
def scanStep (st : ScanState) (ch : Nat) : ScanState :=
  if ch = 34 ∧ st.prevChar ≠ some 92 then ⟨st.depth, !st.inString, some ch⟩
  else if st.inString = false then
    if ch = 123 then ⟨st.depth + 1, st.inString, some ch⟩
    else if ch = 125 then ⟨st.depth - 1, st.inString, some ch⟩
    else ⟨st.depth, st.inString, some ch⟩
  else ⟨st.depth, st.inString, some ch⟩

/-- The loop variables after the iterations over `w`, ignoring the return of line 42. -/
def scanRun (st : ScanState) (w : List Nat) : ScanState := w.foldl scanStep st

/-- No iteration over `w` reaches the return of line 42. -/
def scanQuiet : ScanState → List Nat → Prop
  | _, [] => True
  | st, c :: cs => ¬ (st.inString = false ∧ c = 125 ∧ st.depth = 1) ∧ scanQuiet (scanStep st c) cs

/-- Every quote that directly follows a backslash follows an odd number of consecutive
backslashes, `run` of which have just been read: the quotes that line 35 takes for
escaped are exactly the escaped ones. -/
def quotesUnambiguous : Nat → List Nat → Bool
  | _, [] => true
  | run, c :: cs =>
    if c = 92 then quotesUnambiguous (run + 1) cs
    else (c ≠ 34 ∨ run = 0 ∨ run % 2 = 1) && quotesUnambiguous 0 cs

/-- The loop variables and the specification's scan state agree after a run of `run`
backslashes. -/
def Agree (st : ScanState) (r : SpecState) (run : Nat) : Prop :=
  st.depth = r.depth ∧ st.inString = r.inString ∧ (st.prevChar = some 92 ↔ 0 < run) ∧
    (r.escaped = true ↔ run % 2 = 1)

/-- Every backslash is directly followed by a quote: the only escape sequence that occurs
is the escaped quote. -/
def onlyQuoteEscapes : List Nat → Bool
  | [] => true
  | [c] => c ≠ 92
  | c :: d :: cs => (c ≠ 92 ∨ d = 34) && onlyQuoteEscapes (d :: cs)

/-- The `videoRenderer` of an item that is not `null` (line 59). -/
def videoRendererOf (it : JSValue) : JSValue := getPropOpt it (utf16 "videoRenderer")

/-- The value `section?.itemSectionRenderer?.contents` of line 57. -/
def itemsOf (sec : JSValue) : JSValue :=
  getPropOpt (getPropOpt sec (utf16 "itemSectionRenderer")) (utf16 "contents")

/-- The record of an item, if it has a truthy `videoRenderer` whose record can be built. -/
def recordOf (numToString : JSNumber → List Nat) (it : JSValue) : Option VideoRecord :=
  if truthy (videoRendererOf it) then buildRecord numToString (videoRendererOf it) else none

/-- The property names of line 54, outermost first. -/
def sectionPath : List (List Nat) :=
  [utf16 "contents", utf16 "twoColumnSearchResultsRenderer", utf16 "primaryContents",
    utf16 "sectionListRenderer", utf16 "contents"]

/-- The value found by following own properties of nested objects along a path; `none`
when a step meets a value that is not an object or an object without the property. -/
def pathOf : JSValue → List (List Nat) → Option JSValue
  | v, [] => some v
  | .obj props, k :: ks => if hasOwn k props then pathOf (lookup k props) ks else none
  | _, _ :: _ => none

/-- Outcome of the `try` block of lines 53-77: `Except.ok` when it runs to a `return` or
to its end, `Except.error` when an exception is thrown inside it; both carry `results`
as it stands at that moment. -/
def tryBlock (numToString : JSNumber → List Nat) (initialData : JSValue) :
    Except (List VideoRecord) (List VideoRecord) :=
  match sectionList initialData with
  | .arr contents => sectionsLoop numToString contents []
  | _ => .ok []

/-- What one iteration of the inner loop (lines 59-75) does with an item: `none` when it
throws, `some none` when the item is skipped by `continue`, `some (some r)` when the
record `r` is pushed. -/
def itemStep (numToString : JSNumber → List Nat) (it : JSValue) : Option (Option VideoRecord) :=
  match getProp it (utf16 "videoRenderer") with
  | none => none
  | some vr => if truthy vr then (buildRecord numToString vr).map some else some none

/-- The items that the inner loop visits for a section (line 57): the array itself, nothing
for a string or a falsy or missing value, and `none` when the value is not iterable. -/
def sectionItems (sec : JSValue) : Option (List JSValue) :=
  match jsOr (itemsOf sec) (.arr []) with
  | .arr items => some items
  | .str _ => some []
  | _ => none

/-- The items of all sections in traversal order, as far as they are iterable. -/
def allItems (sections : List JSValue) : List JSValue :=
  sections.flatMap fun sec => (sectionItems sec).getD []

/-- What the `catch` of lines 78-81 makes of the outcome of the `try` block: `results`
either way. -/
def caught (outcome : Except (List VideoRecord) (List VideoRecord)) : List VideoRecord :=
  match outcome with
  | .ok results => results
  | .error results => results

/-- A document whose section list is the given value. -/
def documentOf (sections : JSValue) : JSValue :=
  .obj [(utf16 "contents", .obj [(utf16 "twoColumnSearchResultsRenderer",
    .obj [(utf16 "primaryContents", .obj [(utf16 "sectionListRenderer",
      .obj [(utf16 "contents", sections)])])])])]

/-- A section whose `itemSectionRenderer.contents` is the given value. -/
def sectionOf (contents : JSValue) : JSValue :=
  .obj [(utf16 "itemSectionRenderer", .obj [(utf16 "contents", contents)])]

/-- An item with the given `videoRenderer`. -/
def itemOf (videoRenderer : JSValue) : JSValue :=
  .obj [(utf16 "videoRenderer", videoRenderer)]

set_option maxRecDepth 100000

/-! ## Parser invariants -/

theorem objCount_complete (v : JSValue) (fs : List Frame) :
    objCount (complete v fs).stack = objCount fs := by
  cases fs with
  | nil => rfl
  | cons f fs => cases f <;> rfl

theorem feed_lbrace {p p' : PState} (h : feed p .lbrace = some p') :
    objCount p'.stack = objCount p.stack + 1 := by
  unfold feed at h
  split at h <;> simp_all [objCount, Frame.isObj] <;> subst h <;> simp [objCount, Frame.isObj] <;> omega

theorem feed_rbrace {p p' : PState} (h : feed p .rbrace = some p') :
    objCount p'.stack + 1 = objCount p.stack := by
  unfold feed at h
  split at h <;> simp_all [objCount, Frame.isObj] <;> subst h <;> simp [objCount_complete] <;> omega

theorem feed_other {p p' : PState} {t : Token} (h : feed p t = some p')
    (hl : t ≠ .lbrace) (hr : t ≠ .rbrace) :
    objCount p'.stack = objCount p.stack := by
  unfold feed at h
  split at h <;> simp_all [objCount, Frame.isObj] <;> subst h <;> simp [objCount_complete, objCount, Frame.isObj]

theorem bottomObj_complete (v : JSValue) (fs : List Frame) (h : bottomObj fs = true) :
    bottomObj (complete v fs).stack = true := by
  cases fs with
  | nil => simp [bottomObj] at h
  | cons f fs =>
    cases fs with
    | nil => cases f <;> simp_all [bottomObj, complete, Frame.isObj]
    | cons g gs => cases f <;> simpa [bottomObj, complete] using h

theorem bottomObj_pos {fs : List Frame} (h : bottomObj fs = true) : 0 < objCount fs := by
  induction fs with
  | nil => simp [bottomObj] at h
  | cons f fs ih =>
    cases fs with
    | nil => simp_all [bottomObj, objCount]
    | cons g gs => simp only [bottomObj] at h; have := ih h; simp only [objCount] at this ⊢; omega

theorem bottomObj_cons (f : Frame) {fs : List Frame} (h : fs ≠ []) :
    bottomObj (f :: fs) = bottomObj fs := by
  cases fs with
  | nil => exact absurd rfl h
  | cons g gs => rfl

theorem bottomObj_push (f : Frame) {fs : List Frame} (h : bottomObj fs = true) :
    bottomObj (f :: fs) = true := by
  rw [bottomObj_cons f (by rintro rfl; simp [bottomObj] at h)]; exact h

theorem rooted_complete_pop (f : Frame) (fs : List Frame) (v : JSValue)
    (h : bottomObj (f :: fs) = true) (hv : fs = [] → ∃ props, v = .obj props) :
    (complete v fs).Rooted := by
  cases fs with
  | nil =>
    obtain ⟨props, rfl⟩ := hv rfl
    exact Or.inr ⟨rfl, props, rfl⟩
  | cons g gs => exact Or.inl (bottomObj_complete v _ (by simpa [bottomObj] using h))

theorem feed_rooted {p p' : PState} {t : Token} (h : feed p t = some p') (hp : p.Rooted) :
    p'.Rooted := by
  rcases hp with hb | ⟨hs, props, he⟩
  · unfold feed at h
    split at h <;> simp only [Option.some.injEq, reduceCtorEq] at h <;> subst h
    all_goals rename_i hstack
    all_goals try rw [hstack] at hb
    all_goals first
      | exact Or.inl (bottomObj_push _ hb)
      | exact Or.inl (bottomObj_complete _ _ hb)
      | exact rooted_complete_pop _ _ _ hb (fun _ => ⟨_, rfl⟩)
      | exact rooted_complete_pop _ _ _ hb (fun h0 => by subst h0; simp [bottomObj, Frame.isObj] at hb)
      | (cases hfs : (‹List Frame›) <;> simp_all [PState.Rooted, bottomObj, Frame.isObj])
  · unfold feed at h
    split at h <;> simp_all

theorem isWs_iff (c : Nat) : isWs c = true ↔ (c = 32 ∨ c = 9 ∨ c = 10 ∨ c = 13) := by
  simp [isWs]

theorem isDigit_iff (c : Nat) : isDigit c = true ↔ (48 ≤ c ∧ c ≤ 57) := by
  simp [isDigit]

theorem isLower_iff (c : Nat) : isLower c = true ↔ (97 ≤ c ∧ c ≤ 122) := by
  simp [isLower]

theorem isNumChar_iff (c : Nat) :
    isNumChar c = true ↔ ((48 ≤ c ∧ c ≤ 57) ∨ c = 43 ∨ c = 45 ∨ c = 46 ∨ c = 101 ∨ c = 69) := by
  simp [isNumChar, isDigit]

theorem stepTop_cases {p : PState} {c : Nat} {s' : MState} (h : stepTop p c = some s') :
    TopCase p c s' := by
  unfold stepTop at h
  by_cases h1 : isWs c = true
  · rw [if_pos h1] at h
    exact .ws ((isWs_iff c).mp h1) (Option.some.inj h).symm
  rw [if_neg h1] at h
  by_cases h2 : c = 123
  · rw [if_pos h2] at h
    obtain ⟨p', hp', rfl⟩ := Option.map_eq_some'.mp h
    exact .lbrace p' h2 hp' rfl
  rw [if_neg h2] at h
  by_cases h3 : c = 125
  · rw [if_pos h3] at h
    obtain ⟨p', hp', rfl⟩ := Option.map_eq_some'.mp h
    exact .rbrace p' h3 hp' rfl
  rw [if_neg h3] at h
  by_cases h4 : c = 91
  · rw [if_pos h4] at h
    obtain ⟨p', hp', rfl⟩ := Option.map_eq_some'.mp h
    exact .punct p' _ (by omega) (by simp) (by simp) hp' rfl
  rw [if_neg h4] at h
  by_cases h5 : c = 93
  · rw [if_pos h5] at h
    obtain ⟨p', hp', rfl⟩ := Option.map_eq_some'.mp h
    exact .punct p' _ (by omega) (by simp) (by simp) hp' rfl
  rw [if_neg h5] at h
  by_cases h6 : c = 58
  · rw [if_pos h6] at h
    obtain ⟨p', hp', rfl⟩ := Option.map_eq_some'.mp h
    exact .punct p' _ (by omega) (by simp) (by simp) hp' rfl
  rw [if_neg h6] at h
  by_cases h7 : c = 44
  · rw [if_pos h7] at h
    obtain ⟨p', hp', rfl⟩ := Option.map_eq_some'.mp h
    exact .punct p' _ (by omega) (by simp) (by simp) hp' rfl
  rw [if_neg h7] at h
  by_cases h8 : c = 34
  · rw [if_pos h8] at h
    exact .quote h8 (Option.some.inj h).symm
  rw [if_neg h8] at h
  by_cases h9 : c = 45 ∨ isDigit c = true
  · rw [if_pos h9] at h
    rw [isDigit_iff] at h9
    exact .num h9 (Option.some.inj h).symm
  rw [if_neg h9] at h
  by_cases h10 : isLower c = true
  · rw [if_pos h10] at h
    exact .word ((isLower_iff c).mp h10) (Option.some.inj h).symm
  rw [if_neg h10] at h
  exact absurd h (by simp)

theorem stepTop_sim {p : PState} {c : Nat} {s' : MState} {r : SpecState}
    (h : stepTop p c = some s') (hd : r.depth = objCount p.stack)
    (hi : r.inString = false) (he : r.escaped = false) : Sim s' (specStep r c) := by
  cases stepTop_cases h with
  | ws hc e =>
    subst e
    refine ⟨?_, ?_, ?_⟩ <;> simp [specStep, hi, he, hd, LexMode.inStr, LexMode.isEsc] <;> omega
  | lbrace p' hc f e =>
    subst e hc
    have := feed_lbrace f
    refine ⟨?_, ?_, ?_⟩ <;> simp [specStep, hi, he, hd, LexMode.inStr, LexMode.isEsc, this]
  | rbrace p' hc f e =>
    subst e hc
    have := feed_rbrace f
    refine ⟨?_, ?_, ?_⟩ <;> simp [specStep, hi, he, hd, LexMode.inStr, LexMode.isEsc]
    omega
  | punct p' t hc hl hr f e =>
    subst e
    have := feed_other f hl hr
    refine ⟨?_, ?_, ?_⟩ <;> simp [specStep, hi, he, hd, LexMode.inStr, LexMode.isEsc, this] <;> omega
  | quote hc e =>
    subst e hc
    refine ⟨?_, ?_, ?_⟩ <;> simp [specStep, hi, he, hd, LexMode.inStr, LexMode.isEsc]
  | num hc e =>
    subst e
    refine ⟨?_, ?_, ?_⟩ <;> simp [specStep, hi, he, hd, LexMode.inStr, LexMode.isEsc] <;> omega
  | word hc e =>
    subst e
    refine ⟨?_, ?_, ?_⟩ <;> simp [specStep, hi, he, hd, LexMode.inStr, LexMode.isEsc] <;> omega

theorem stepTop_rooted {p : PState} {c : Nat} {s' : MState}
    (h : stepTop p c = some s') (hp : p.Rooted) : s'.p.Rooted := by
  cases stepTop_cases h with
  | ws hc e => subst e; exact hp
  | lbrace p' hc f e => subst e; exact feed_rooted f hp
  | rbrace p' hc f e => subst e; exact feed_rooted f hp
  | punct p' t hc hl hr f e => subst e; exact feed_rooted f hp
  | quote hc e => subst e; exact hp
  | num hc e => subst e; exact hp
  | word hc e => subst e; exact hp

theorem hexDigit_range {c d : Nat} (h : hexDigit c = some d) :
    (48 ≤ c ∧ c ≤ 57) ∨ (97 ≤ c ∧ c ≤ 102) ∨ (65 ≤ c ∧ c ≤ 70) := by
  unfold hexDigit at h
  by_cases h1 : 48 ≤ c ∧ c ≤ 57
  · exact Or.inl h1
  rw [if_neg h1] at h
  by_cases h2 : 97 ≤ c ∧ c ≤ 102
  · exact Or.inr (Or.inl h2)
  rw [if_neg h2] at h
  by_cases h3 : 65 ≤ c ∧ c ≤ 70
  · exact Or.inr (Or.inr h3)
  rw [if_neg h3] at h
  exact absurd h (by simp)

theorem step_sim {s s' : MState} {c : Nat} {r : SpecState}
    (h : step s c = some s') (hs : Sim s r) : Sim s' (specStep r c) := by
  obtain ⟨hd, hi, he⟩ := hs
  rcases s with ⟨mode, p⟩
  cases mode with
  | top => exact stepTop_sim h hd hi he
  | str acc =>
    simp only [step] at h
    by_cases h1 : c = 34
    · rw [if_pos h1] at h
      obtain ⟨p', hp', rfl⟩ := Option.map_eq_some'.mp h
      have := feed_other hp' (by simp) (by simp)
      refine ⟨?_, ?_, ?_⟩ <;>
        simp_all [specStep, LexMode.inStr, LexMode.isEsc]
    rw [if_neg h1] at h
    by_cases h2 : c = 92
    · rw [if_pos h2] at h
      obtain rfl := Option.some.inj h
      refine ⟨?_, ?_, ?_⟩ <;> simp_all [specStep, LexMode.inStr, LexMode.isEsc]
    rw [if_neg h2] at h
    by_cases h3 : c < 32
    · rw [if_pos h3] at h; exact absurd h (by simp)
    rw [if_neg h3] at h
    obtain rfl := Option.some.inj h
    refine ⟨?_, ?_, ?_⟩ <;> simp_all [specStep, LexMode.inStr, LexMode.isEsc]
  | esc acc =>
    simp only [step] at h
    cases hu : unescape c with
    | some d =>
      rw [hu] at h
      obtain rfl := Option.some.inj h
      refine ⟨?_, ?_, ?_⟩ <;> simp_all [specStep, LexMode.inStr, LexMode.isEsc]
    | none =>
      rw [hu] at h
      by_cases h1 : c = 117
      · simp only [if_pos h1] at h
        obtain rfl := Option.some.inj h
        refine ⟨?_, ?_, ?_⟩ <;> simp_all [specStep, LexMode.inStr, LexMode.isEsc]
      · simp only [if_neg h1] at h
        exact absurd h (by simp)
  | uni acc code seen =>
    simp only [step] at h
    cases hu : hexDigit c with
    | none => rw [hu] at h; exact absurd h (by simp)
    | some d =>
      rw [hu] at h
      have hr := hexDigit_range hu
      have h34 : c ≠ 34 := by omega
      have h92 : c ≠ 92 := by omega
      by_cases h1 : seen = 3
      · simp only [if_pos h1] at h
        obtain rfl := Option.some.inj h
        refine ⟨?_, ?_, ?_⟩ <;> simp_all [specStep, LexMode.inStr, LexMode.isEsc]
      · simp only [if_neg h1] at h
        obtain rfl := Option.some.inj h
        refine ⟨?_, ?_, ?_⟩ <;> simp_all [specStep, LexMode.inStr, LexMode.isEsc]
  | num raw =>
    simp only [step] at h
    by_cases h1 : isNumChar c = true
    · rw [if_pos h1] at h
      obtain rfl := Option.some.inj h
      rw [isNumChar_iff] at h1
      have h34 : c ≠ 34 := by omega
      have h92 : c ≠ 92 := by omega
      have h123 : c ≠ 123 := by omega
      have h125 : c ≠ 125 := by omega
      refine ⟨?_, ?_, ?_⟩ <;> simp_all [specStep, LexMode.inStr, LexMode.isEsc]
    rw [if_neg h1] at h
    obtain ⟨n, -, h⟩ := Option.bind_eq_some.mp h
    obtain ⟨p1, hp1, h⟩ := Option.bind_eq_some.mp h
    have := feed_other hp1 (by simp) (by simp)
    exact stepTop_sim h (by rw [this]; exact hd) hi he
  | word raw =>
    simp only [step] at h
    by_cases h1 : isLower c = true
    · rw [if_pos h1] at h
      obtain rfl := Option.some.inj h
      rw [isLower_iff] at h1
      have h34 : c ≠ 34 := by omega
      have h92 : c ≠ 92 := by omega
      have h123 : c ≠ 123 := by omega
      have h125 : c ≠ 125 := by omega
      refine ⟨?_, ?_, ?_⟩ <;> simp_all [specStep, LexMode.inStr, LexMode.isEsc]
    rw [if_neg h1] at h
    obtain ⟨v, -, h⟩ := Option.bind_eq_some.mp h
    obtain ⟨p1, hp1, h⟩ := Option.bind_eq_some.mp h
    have := feed_other hp1 (by simp) (by simp)
    exact stepTop_sim h (by rw [this]; exact hd) hi he

/-! ## Accepted object texts and the specification's scan -/

theorem step_rooted {s s' : MState} {c : Nat} (h : step s c = some s') (hp : s.p.Rooted) :
    s'.p.Rooted := by
  rcases s with ⟨mode, p⟩
  cases mode with
  | top => exact stepTop_rooted h hp
  | str acc =>
    simp only [step] at h
    by_cases h1 : c = 34
    · rw [if_pos h1] at h
      obtain ⟨p', hp', rfl⟩ := Option.map_eq_some'.mp h
      exact feed_rooted hp' hp
    rw [if_neg h1] at h
    by_cases h2 : c = 92
    · rw [if_pos h2] at h
      obtain rfl := Option.some.inj h
      exact hp
    rw [if_neg h2] at h
    by_cases h3 : c < 32
    · rw [if_pos h3] at h; exact absurd h (by simp)
    rw [if_neg h3] at h
    obtain rfl := Option.some.inj h
    exact hp
  | esc acc =>
    simp only [step] at h
    cases hu : unescape c with
    | some d =>
      rw [hu] at h
      obtain rfl := Option.some.inj h
      exact hp
    | none =>
      rw [hu] at h
      by_cases h1 : c = 117
      · simp only [if_pos h1] at h
        obtain rfl := Option.some.inj h
        exact hp
      · simp only [if_neg h1] at h
        exact absurd h (by simp)
  | uni acc code seen =>
    simp only [step] at h
    cases hu : hexDigit c with
    | none => rw [hu] at h; exact absurd h (by simp)
    | some d =>
      rw [hu] at h
      by_cases h1 : seen = 3
      · simp only [if_pos h1] at h
        obtain rfl := Option.some.inj h
        exact hp
      · simp only [if_neg h1] at h
        obtain rfl := Option.some.inj h
        exact hp
  | num raw =>
    simp only [step] at h
    by_cases h1 : isNumChar c = true
    · rw [if_pos h1] at h
      obtain rfl := Option.some.inj h
      exact hp
    rw [if_neg h1] at h
    obtain ⟨n, -, h⟩ := Option.bind_eq_some.mp h
    obtain ⟨p1, hp1, h⟩ := Option.bind_eq_some.mp h
    exact stepTop_rooted h (feed_rooted hp1 hp)
  | word raw =>
    simp only [step] at h
    by_cases h1 : isLower c = true
    · rw [if_pos h1] at h
      obtain rfl := Option.some.inj h
      exact hp
    rw [if_neg h1] at h
    obtain ⟨v, -, h⟩ := Option.bind_eq_some.mp h
    obtain ⟨p1, hp1, h⟩ := Option.bind_eq_some.mp h
    exact stepTop_rooted h (feed_rooted hp1 hp)

theorem feed_done {p : PState} (t : Token) (h : p.expect.isDone = true) : feed p t = none := by
  rcases p with ⟨stack, expect⟩
  cases expect <;> simp [Expect.isDone] at h
  simp [feed]

theorem stepTop_done {p : PState} {c : Nat} {s' : MState}
    (h : stepTop p c = some s') (hp : p.expect.isDone = true) : s'.p = p := by
  cases stepTop_cases h with
  | ws hc e => subst e; rfl
  | lbrace p' hc f e => rw [feed_done _ hp] at f; exact absurd f (by simp)
  | rbrace p' hc f e => rw [feed_done _ hp] at f; exact absurd f (by simp)
  | punct p' t hc hl hr f e => rw [feed_done _ hp] at f; exact absurd f (by simp)
  | quote hc e => subst e; rfl
  | num hc e => subst e; rfl
  | word hc e => subst e; rfl

theorem step_done {s s' : MState} {c : Nat} (h : step s c = some s')
    (hp : s.p.expect.isDone = true) : s'.p = s.p := by
  rcases s with ⟨mode, p⟩
  cases mode with
  | top => exact stepTop_done h hp
  | str acc =>
    simp only [step] at h
    by_cases h1 : c = 34
    · rw [if_pos h1, feed_done _ hp] at h
      exact absurd h (by simp)
    rw [if_neg h1] at h
    by_cases h2 : c = 92
    · rw [if_pos h2] at h
      obtain rfl := Option.some.inj h
      rfl
    rw [if_neg h2] at h
    by_cases h3 : c < 32
    · rw [if_pos h3] at h; exact absurd h (by simp)
    rw [if_neg h3] at h
    obtain rfl := Option.some.inj h
    rfl
  | esc acc =>
    simp only [step] at h
    cases hu : unescape c with
    | some d =>
      rw [hu] at h
      obtain rfl := Option.some.inj h
      rfl
    | none =>
      rw [hu] at h
      by_cases h1 : c = 117
      · simp only [if_pos h1] at h
        obtain rfl := Option.some.inj h
        rfl
      · simp only [if_neg h1] at h
        exact absurd h (by simp)
  | uni acc code seen =>
    simp only [step] at h
    cases hu : hexDigit c with
    | none => rw [hu] at h; exact absurd h (by simp)
    | some d =>
      rw [hu] at h
      by_cases h1 : seen = 3
      · simp only [if_pos h1] at h
        obtain rfl := Option.some.inj h
        rfl
      · simp only [if_neg h1] at h
        obtain rfl := Option.some.inj h
        rfl
  | num raw =>
    simp only [step] at h
    by_cases h1 : isNumChar c = true
    · rw [if_pos h1] at h
      obtain rfl := Option.some.inj h
      rfl
    rw [if_neg h1] at h
    obtain ⟨n, -, h⟩ := Option.bind_eq_some.mp h
    obtain ⟨p1, hp1, h⟩ := Option.bind_eq_some.mp h
    rw [feed_done _ hp] at hp1
    exact absurd hp1 (by simp)
  | word raw =>
    simp only [step] at h
    by_cases h1 : isLower c = true
    · rw [if_pos h1] at h
      obtain rfl := Option.some.inj h
      rfl
    rw [if_neg h1] at h
    obtain ⟨v, -, h⟩ := Option.bind_eq_some.mp h
    obtain ⟨p1, hp1, h⟩ := Option.bind_eq_some.mp h
    rw [feed_done _ hp] at hp1
    exact absurd hp1 (by simp)

/-- After a complete value, no text ending in a closing brace is accepted. -/
theorem done_final {s : MState} (hp : s.p.expect.isDone = true) :
    (step s 125).bind finish = none := by
  rcases s with ⟨mode, p⟩
  cases mode with
  | top =>
    cases hs : step ⟨.top, p⟩ 125 with
    | none => rfl
    | some s' =>
      cases stepTop_cases hs with
      | ws hc e => omega
      | lbrace p' hc f e => omega
      | rbrace p' hc f e => rw [feed_done _ hp] at f; exact absurd f (by simp)
      | punct p' t hc hl hr f e => omega
      | quote hc e => omega
      | num hc e => omega
      | word hc e => omega
  | str acc => simp [step, finish]
  | esc acc => simp [step, unescape]
  | uni acc code seen => simp [step, hexDigit]
  | num raw => simp [step, isNumChar, isDigit, feed_done _ hp]
  | word raw => simp [step, isLower, feed_done _ hp]

theorem done_run (w : List Nat) {s : MState} (hp : s.p.expect.isDone = true) :
    (run s (w ++ [125])).bind finish = none := by
  induction w generalizing s with
  | nil =>
    simp only [List.nil_append, run]
    cases hs : step s 125 with
    | none => rfl
    | some s' =>
      have := done_final hp
      rw [hs] at this
      simpa using this
  | cons c w ih =>
    simp only [List.cons_append, run]
    cases hs : step s c with
    | none => rfl
    | some s' =>
      simp only [Option.some_bind]
      exact ih (by rw [step_done hs hp]; exact hp)

theorem result_some {p : PState} {v : JSValue} (h : p.result = some v) :
    p.stack = [] ∧ p.expect = .done v := by
  rcases p with ⟨stack, expect⟩
  cases expect <;> cases stack <;> simp_all [PState.result]

theorem result_rooted {p : PState} {v : JSValue} (h : p.result = some v) (hp : p.Rooted) :
    ∃ props, v = .obj props := by
  obtain ⟨hs, he⟩ := result_some h
  rcases hp with hb | ⟨-, props, hd⟩
  · rw [hs] at hb; simp [bottomObj] at hb
  · rw [he] at hd
    exact ⟨props, by injection hd⟩

theorem finish_some {s : MState} {v : JSValue} (h : finish s = some v) :
    ∃ p : PState, p.result = some v ∧ objCount p.stack = objCount s.p.stack ∧ s.mode.inStr = false ∧
      (s.p.Rooted → p.Rooted) := by
  rcases s with ⟨mode, p⟩
  cases mode with
  | top => exact ⟨p, h, rfl, rfl, id⟩
  | str acc => simp [finish] at h
  | esc acc => simp [finish] at h
  | uni acc code seen => simp [finish] at h
  | num raw =>
    simp only [finish] at h
    obtain ⟨n, -, h⟩ := Option.bind_eq_some.mp h
    obtain ⟨p1, hp1, h⟩ := Option.bind_eq_some.mp h
    exact ⟨p1, h, feed_other hp1 (by simp) (by simp), rfl, feed_rooted hp1⟩
  | word raw =>
    simp only [finish] at h
    obtain ⟨n, -, h⟩ := Option.bind_eq_some.mp h
    obtain ⟨p1, hp1, h⟩ := Option.bind_eq_some.mp h
    exact ⟨p1, h, feed_other hp1 (by simp) (by simp), rfl, feed_rooted hp1⟩

theorem run_cons (s : MState) (c : Nat) (cs : List Nat) :
    run s (c :: cs) = (step s c).bind fun s' => run s' cs := rfl

theorem run_rooted {w : List Nat} {s s' : MState} (h : run s w = some s') (hp : s.p.Rooted) :
    s'.p.Rooted := by
  induction w generalizing s with
  | nil => simp only [run, Option.some.injEq] at h; subst h; exact hp
  | cons c w ih =>
    simp only [run] at h
    obtain ⟨s1, hs1, h⟩ := Option.bind_eq_some.mp h
    exact ih h (step_rooted hs1 hp)

theorem specRun_cons (r : SpecState) (c : Nat) (w : List Nat) :
    specRun r (c :: w) = specRun (specStep r c) w := rfl

theorem specRun_append (r : SpecState) (a b : List Nat) :
    specRun r (a ++ b) = specRun (specRun r a) b := by
  simp [specRun]

/-- On an accepted text that ends in a closing brace, the specification's scan is at
depth one outside any string just before that brace, and not earlier. -/
theorem closing_brace {w : List Nat} {s : MState} {r : SpecState} {v : JSValue}
    (hs : Sim s r) (hp : s.p.Rooted) (h : (run s (w ++ [125])).bind finish = some v) :
    specQuiet r w ∧ (specRun r w).inString = false ∧ (specRun r w).depth = 1 := by
  induction w generalizing s r with
  | nil =>
    rw [List.nil_append, run_cons] at h
    obtain ⟨s0, hs0, h⟩ := Option.bind_eq_some.mp h
    obtain ⟨s1, hs1, hs0⟩ := Option.bind_eq_some.mp hs0
    simp only [run, Option.some.injEq] at hs0; subst hs0
    obtain ⟨p, hres, hcount, hmode, -⟩ := finish_some h
    obtain ⟨hd, hi, -⟩ := step_sim hs1 hs
    rw [(result_some hres).1] at hcount
    rw [hmode] at hi
    rw [← hcount] at hd
    have hi' : r.inString = false := by simpa [specStep] using hi
    refine ⟨trivial, hi', ?_⟩
    simp only [specStep, hi', true_and, if_true] at hd
    simp only [specRun, List.foldl_nil]
    simp [objCount] at hd
    omega
  | cons c w ih =>
    rw [List.cons_append, run_cons] at h
    obtain ⟨s0, hs0, h⟩ := Option.bind_eq_some.mp h
    obtain ⟨s1, hs1, hs0⟩ := Option.bind_eq_some.mp hs0
    have h' : (run s1 (w ++ [125])).bind finish = some v := by rw [hs0]; exact h
    have hsim := step_sim hs1 hs
    have hroot := step_rooted hs1 hp
    obtain ⟨hq, hfin⟩ := ih hsim hroot h'
    refine ⟨⟨?_, hq⟩, hfin⟩
    rintro ⟨hi, rfl, hd⟩
    have hd1 := hsim.1
    simp only [specStep, hi, hd, true_and, if_true] at hd1
    rcases hroot with hb | ⟨-, props, he⟩
    · have := bottomObj_pos hb
      simp at hd1
      omega
    · have := done_run w (s := s1) (by rw [he]; rfl)
      rw [this] at h'
      exact absurd h' (by simp)

/-! ## The loop of lines 32-46 against the specification's scan -/

theorem scanLoop_cons (ch : Nat) (rest : List Nat) (i : Nat) (st : ScanState) :
    scanLoop (ch :: rest) i st.depth st.inString st.prevChar =
      if st.inString = false ∧ ch = 125 ∧ st.depth = 1 then some i
      else scanLoop rest (i + 1) (scanStep st ch).depth (scanStep st ch).inString
        (scanStep st ch).prevChar := by
  rw [scanLoop, scanStep]
  by_cases h1 : ch = 34 ∧ st.prevChar ≠ some 92
  · rw [if_pos h1, if_pos h1, if_neg (by omega)]
  rw [if_neg h1, if_neg h1]
  by_cases h2 : st.inString = false
  · rw [if_pos h2, if_pos h2]
    by_cases h3 : ch = 123
    · rw [if_pos h3, if_pos h3, if_neg (by omega)]
    rw [if_neg h3, if_neg h3]
    by_cases h4 : ch = 125
    · rw [if_pos h4, if_pos h4]
      by_cases h5 : st.depth - 1 = 0
      · rw [if_pos h5, if_pos ⟨h2, h4, by omega⟩]
      · rw [if_neg h5, if_neg (by omega)]
    · rw [if_neg h4, if_neg h4, if_neg (by tauto)]
  · rw [if_neg h2, if_neg h2, if_neg (by tauto)]

theorem scanRun_cons (st : ScanState) (c : Nat) (w : List Nat) :
    scanRun st (c :: w) = scanRun (scanStep st c) w := rfl

theorem scanRun_append (st : ScanState) (a b : List Nat) :
    scanRun st (a ++ b) = scanRun (scanRun st a) b := by
  simp [scanRun]

/-- Iterations that do not return just advance the loop variables. -/
theorem scanLoop_quiet (w rest : List Nat) (i : Nat) (st : ScanState) (h : scanQuiet st w) :
    scanLoop (w ++ rest) i st.depth st.inString st.prevChar =
      scanLoop rest (i + w.length) (scanRun st w).depth (scanRun st w).inString
        (scanRun st w).prevChar := by
  induction w generalizing i st with
  | nil => rfl
  | cons c w ih =>
    obtain ⟨h1, h2⟩ := h
    rw [List.cons_append, scanLoop_cons, if_neg h1, ih _ _ h2, scanRun_cons, List.length_cons]
    congr 1
    omega

theorem agree_step {st : ScanState} {r : SpecState} {run c : Nat} (h : Agree st r run)
    (hc : c = 34 → run = 0 ∨ run % 2 = 1) :
    Agree (scanStep st c) (specStep r c) (if c = 92 then run + 1 else 0) := by
  obtain ⟨hd, hi, hp, he⟩ := h
  have hesc : r.escaped = false ↔ run % 2 = 0 := by
    cases h : r.escaped
    · rw [h] at he; simp only [Bool.false_eq_true, false_iff] at he; simp only [true_iff]; omega
    · rw [h] at he; simp only [true_iff] at he; simp only [Bool.true_eq_false, false_iff]; omega
  by_cases h92 : c = 92
  · subst h92
    have hne : ¬ ((92 : Nat) = 34 ∧ st.prevChar ≠ some 92) := by omega
    refine ⟨?_, ?_, ?_, ?_⟩
    · simp [scanStep, specStep, hd, hi]
    · simp [scanStep, specStep, hd, hi]
    · simp [scanStep]
    · simp only [specStep, if_true, true_and, decide_eq_true_eq, hesc]
      omega
  · rw [if_neg h92]
    have hesc' : (specStep r c).escaped = false := by simp [specStep, h92]
    by_cases h34 : c = 34
    · subst h34
      rcases hc rfl with h0 | h1
      · have hprev : st.prevChar ≠ some 92 := by rw [Ne, hp]; omega
        have hre : r.escaped = false := hesc.mpr (by omega)
        refine ⟨?_, ?_, ?_, ?_⟩
        · simp [scanStep, specStep, hd, hi, hprev]
        · simp [scanStep, specStep, hd, hi, hprev, hre]
        · simp [scanStep, hprev]
        · simp [hesc']
      · have hprev : st.prevChar = some 92 := hp.mpr (by omega)
        have hre : r.escaped = true := he.mpr h1
        refine ⟨?_, ?_, ?_, ?_⟩
        · simp only [scanStep, specStep, hprev]
          cases hs : st.inString <;> simp [← hi, hs, hd]
        · simp [scanStep, specStep, hd, hi, hprev, hre]
        · simp only [scanStep, hprev]
          cases hs : st.inString <;> simp
        · simp [hesc']
    · have hne : ¬ (c = 34 ∧ st.prevChar ≠ some 92) := fun h => h34 h.1
      refine ⟨?_, ?_, ?_, ?_⟩
      · simp only [scanStep, specStep, if_neg hne, ← hi, ← hd]
        cases hs : st.inString
        · by_cases h123 : c = 123
          · simp [h123]
          · by_cases h125 : c = 125
            · simp [h125]
            · simp [h123, h125]
        · simp
      · simp only [scanStep, specStep, if_neg hne, ← hi, h34, false_and, if_false]
        cases hs : st.inString
        · by_cases h123 : c = 123
          · simp [h123]
          · by_cases h125 : c = 125
            · simp [h125]
            · simp [h123, h125]
        · simp
      · simp only [scanStep, if_neg hne]
        cases hs : st.inString
        · by_cases h123 : c = 123
          · simp [h123]
          · by_cases h125 : c = 125
            · simp [h125]
            · simp [h123, h125, h92]
        · simp [h92]
      · simp [hesc']

theorem agree_run {w : List Nat} {st : ScanState} {r : SpecState} {run : Nat}
    (h : Agree st r run) (hq : quotesUnambiguous run w = true) :
    (∃ run', Agree (scanRun st w) (specRun r w) run') ∧ (specQuiet r w → scanQuiet st w) := by
  induction w generalizing st r run with
  | nil => exact ⟨⟨run, h⟩, fun _ => trivial⟩
  | cons c w ih =>
    rw [quotesUnambiguous] at hq
    have hc : c = 34 → run = 0 ∨ run % 2 = 1 := by
      intro h34
      subst h34
      have : (run = 0 ∨ run % 2 = 1) ∧ quotesUnambiguous 0 w = true := by simpa using hq
      exact this.1
    have hq' : quotesUnambiguous (if c = 92 then run + 1 else 0) w = true := by
      by_cases h92 : c = 92
      · simpa [h92] using hq
      · rw [if_neg h92] at hq ⊢
        simp only [Bool.and_eq_true] at hq
        exact hq.2
    obtain ⟨h1, h2⟩ := ih (agree_step h hc) hq'
    refine ⟨h1, ?_⟩
    rintro ⟨hs, hrest⟩
    refine ⟨?_, h2 hrest⟩
    rw [h.1, h.2.1]
    exact hs

/-! ## The scan on an accepted object text -/

theorem parse_open (u : List Nat) :
    JSON.parse (123 :: u) = (run ⟨.top, ⟨[.obj [] []], .keyOrClose⟩⟩ u).bind finish := rfl

theorem quotesUnambiguous_open (u : List Nat) :
    quotesUnambiguous 0 (123 :: u) = quotesUnambiguous 0 u := by
  simp [quotesUnambiguous]

theorem quotesUnambiguous_of_append {a b : List Nat} {run : Nat}
    (h : quotesUnambiguous run (a ++ b) = true) : quotesUnambiguous run a = true := by
  induction a generalizing run with
  | nil => rfl
  | cons c a ih =>
    rw [List.cons_append, quotesUnambiguous] at h
    rw [quotesUnambiguous]
    by_cases h92 : c = 92
    · rw [if_pos h92] at h ⊢
      exact ih h
    · rw [if_neg h92] at h ⊢
      rw [Bool.and_eq_true] at h ⊢
      exact ⟨h.1, ih h.2⟩

/-- On an accepted object text whose escaped quotes are unambiguous, the loop returns at
the last code unit of the text, whatever follows it. -/
theorem scanLoop_object {u g : List Nat} {v : JSValue} (i : Nat)
    (hparse : JSON.parse (123 :: (u ++ [125])) = some v)
    (hq : quotesUnambiguous 0 (123 :: (u ++ [125])) = true) :
    scanLoop (123 :: (u ++ [125]) ++ g) i 0 false none = some (i + (u.length + 1)) := by
  rw [parse_open] at hparse
  have hsim : Sim ⟨.top, ⟨[.obj [] []], .keyOrClose⟩⟩ (specStep ⟨0, false, false⟩ 123) := by
    refine ⟨?_, ?_, ?_⟩ <;> simp [specStep, objCount, Frame.isObj, LexMode.inStr, LexMode.isEsc]
  have hroot : PState.Rooted ⟨[.obj [] []], .keyOrClose⟩ := Or.inl rfl
  obtain ⟨hquiet, hin, hdepth⟩ := closing_brace hsim hroot hparse
  have hag0 : Agree ⟨0, false, none⟩ ⟨0, false, false⟩ 0 := by
    refine ⟨rfl, rfl, ?_, ?_⟩ <;> simp
  have hq1 : quotesUnambiguous 0 (123 :: u) = true :=
    quotesUnambiguous_of_append (a := 123 :: u) (b := [125]) hq
  obtain ⟨⟨run', hag⟩, hsq⟩ := agree_run hag0 hq1
  have hsquiet : scanQuiet ⟨0, false, none⟩ (123 :: u) := by
    apply hsq
    exact ⟨by simp, hquiet⟩
  have e : 123 :: (u ++ [125]) ++ g = (123 :: u) ++ (125 :: g) := by simp
  have h0 := scanLoop_quiet (123 :: u) (125 :: g) i ⟨0, false, none⟩ hsquiet
  rw [e, h0, scanLoop_cons, if_pos]
  · simp
  · rw [specRun_cons] at hag
    exact ⟨by rw [hag.2.1]; exact hin, rfl, by rw [hag.1]; exact hdepth⟩

theorem object_text_shape {t : List Nat} (hhead : t.head? = some 123)
    (hlast : t.getLast? = some 125) : ∃ u, t = 123 :: (u ++ [125]) := by
  cases t with
  | nil => simp at hhead
  | cons c t =>
    simp only [List.head?_cons, Option.some.injEq] at hhead
    subst hhead
    rcases List.eq_nil_or_concat t with rfl | ⟨u, d, rfl⟩
    · simp at hlast
    · refine ⟨u, ?_⟩
      rw [List.concat_eq_append] at hlast ⊢
      rw [← List.cons_append, List.getLast?_append] at hlast
      simp only [List.getLast?_singleton] at hlast
      have hd : d = 125 := by simpa [Option.or] using hlast
      rw [hd]

theorem slice_mid (pre t post : List Nat) (n : Nat) (h : n = pre.length + t.length) :
    slice (pre ++ t ++ post) pre.length n = t := by
  subst h
  simp [slice]

/-- The scan that begins at the opening brace of an accepted object text with unambiguous
escaped quotes cuts out exactly that text. -/
theorem scanSpan_object {pre t post : List Nat} {v : JSValue}
    (hhead : t.head? = some 123) (hlast : t.getLast? = some 125)
    (hparse : JSON.parse t = some v) (hq : quotesUnambiguous 0 t = true) :
    scanSpan (pre ++ t ++ post) pre.length = some t := by
  obtain ⟨u, rfl⟩ := object_text_shape hhead hlast
  have hdrop : (pre ++ 123 :: (u ++ [125]) ++ post).drop pre.length
      = 123 :: (u ++ [125]) ++ post := by
    rw [List.append_assoc, List.drop_left]
  rw [scanSpan, hdrop, scanLoop_object pre.length hparse hq]
  simp only
  rw [slice_mid]
  simp
  omega

/-! ## Marker search -/

theorem indexOfAux_none {pat : List Nat} (s : List Nat) (i : Nat) (h : ¬ pat <:+: s) :
    indexOfAux pat s i = none := by
  induction s generalizing i with
  | nil =>
    rw [indexOfAux, if_neg]
    intro hp
    apply h
    rw [List.isEmpty_iff] at hp
    subst hp
    exact List.nil_infix
  | cons c cs ih =>
    rw [indexOfAux, if_neg]
    · exact ih _ (fun hc => h (hc.trans (List.suffix_cons c cs).isInfix))
    · intro hp
      exact h (List.isPrefixOf_iff_prefix.mp hp).isInfix

theorem indexOf_none {pat : List Nat} (s : List Nat) (h : ¬ pat <:+: s) :
    indexOf s pat 0 = none := by
  rw [indexOf]
  simp only [Nat.zero_min, List.drop_zero]
  exact indexOfAux_none s 0 h

theorem indexOfAux_at_head {pat s : List Nat} (i : Nat) (h : pat <+: s) :
    indexOfAux pat s i = some i := by
  cases s with
  | nil =>
    rw [indexOfAux, if_pos]
    rw [List.prefix_nil] at h
    rw [h]; rfl
  | cons c cs => rw [indexOfAux, if_pos (List.isPrefixOf_iff_prefix.mpr h)]

theorem indexOf_at_head (pat rest : List Nat) : indexOf (pat ++ rest) pat 0 = some 0 := by
  rw [indexOf]
  simp only [Nat.zero_min, List.drop_zero]
  exact indexOfAux_at_head 0 (List.prefix_append _ _)

theorem indexOf_brace_after (pre rest : List Nat) :
    indexOf (pre ++ 123 :: rest) [123] pre.length = some pre.length := by
  rw [indexOf]
  have : min pre.length (pre ++ 123 :: rest).length = pre.length := by simp
  rw [this, List.drop_left]
  exact indexOfAux_at_head _ ⟨rest, rfl⟩

theorem indexOfAux_some {pat s : List Nat} {i j : Nat} (h : indexOfAux pat s i = some j) :
    i ≤ j ∧ pat <+: s.drop (j - i) := by
  induction s generalizing i with
  | nil =>
    rw [indexOfAux] at h
    by_cases hp : pat.isEmpty = true
    · rw [if_pos hp] at h
      simp only [Option.some.injEq] at h
      subst h
      rw [List.isEmpty_iff] at hp
      subst hp
      exact ⟨le_rfl, List.nil_prefix⟩
    · rw [if_neg hp] at h; exact absurd h (by simp)
  | cons c cs ih =>
    rw [indexOfAux] at h
    by_cases hp : pat.isPrefixOf (c :: cs) = true
    · rw [if_pos hp] at h
      simp only [Option.some.injEq] at h
      subst h
      simpa using List.isPrefixOf_iff_prefix.mp hp
    · rw [if_neg hp] at h
      obtain ⟨h1, h2⟩ := ih h
      refine ⟨by omega, ?_⟩
      have : j - i = (j - (i + 1)) + 1 := by omega
      rw [this, List.drop_succ_cons]
      exact h2

/-- The index that `indexOf` finds for an opening brace holds an opening brace. -/
theorem indexOf_brace {s : List Nat} {pos start : Nat} (h : indexOf s [123] pos = some start) :
    ∃ rest, s.drop start = 123 :: rest := by
  rw [indexOf] at h
  obtain ⟨h1, h2⟩ := indexOfAux_some h
  rw [List.drop_drop] at h2
  have : min pos s.length + (start - min pos s.length) = start := by omega
  rw [this] at h2
  obtain ⟨t, ht⟩ := h2
  exact ⟨t, ht.symm⟩

theorem findStart_none (html : List Nat) (ms : List (List Nat))
    (h : ∀ m ∈ ms, ¬ m <:+: html) : findStart html ms = none := by
  induction ms with
  | nil => rfl
  | cons m ms ih =>
    rw [findStart, indexOf_none html (h m (List.mem_cons_self _ _))]
    exact ih (fun m' hm' => h m' (List.mem_cons_of_mem _ hm'))

/-- When no marker listed before `m` occurs in the text, and the text begins with `m`
followed by an opening brace, the scan starts at that brace. -/
theorem findStart_at_marker (m rest : List Nat) (ms : List (List Nat)) (hm : m ∈ ms)
    (h : ∀ m' ∈ ms.takeWhile (fun m' => decide (m' ≠ m)), ¬ m' <:+: m ++ 123 :: rest) :
    findStart (m ++ 123 :: rest) ms = some m.length := by
  induction ms with
  | nil => simp at hm
  | cons m0 ms ih =>
    rw [findStart]
    by_cases h0 : m0 = m
    · subst h0
      rw [indexOf_at_head]
      simp only [Nat.zero_add]
      exact indexOf_brace_after _ _
    · have hmem : m0 ∈ (m0 :: ms).takeWhile (fun m' => decide (m' ≠ m)) := by
        simp [List.takeWhile_cons, h0]
      rw [indexOf_none _ (h m0 hmem)]
      apply ih
      · rcases List.mem_cons.mp hm with rfl | hm
        · exact absurd rfl h0
        · exact hm
      · intro m' hm'
        apply h
        simp only [List.takeWhile_cons, h0, ne_eq, not_false_eq_true, decide_True]
        exact List.mem_cons_of_mem _ hm'

theorem extract_eq (html : List Nat) :
    extractYtInitialData html =
      match isolatedSpan html with
      | none => .null
      | some t => (JSON.parse t).getD .null := by
  rw [extractYtInitialData, isolatedSpan]
  cases findStart html markers with
  | none => rfl
  | some start =>
    simp only [scanSpan]
    cases scanLoop (html.drop start) start 0 false none with
    | none => rfl
    | some i =>
      simp only
      cases JSON.parse (slice html start (i + 1)) <;> rfl

/-! ## Shape of the isolated text -/

/-- What a successful scan has seen: iterations over `a` that do not return, then a
closing brace met outside any string at depth one. -/
theorem scanLoop_some {w : List Nat} {i j : Nat} {st : ScanState}
    (h : scanLoop w i st.depth st.inString st.prevChar = some j) :
    i ≤ j ∧ ∃ a b, w = a ++ 125 :: b ∧ a.length = j - i ∧ scanQuiet st a ∧
      (scanRun st a).inString = false ∧ (scanRun st a).depth = 1 := by
  induction w generalizing i st with
  | nil => simp [scanLoop] at h
  | cons c w ih =>
    rw [scanLoop_cons] at h
    by_cases hstop : st.inString = false ∧ c = 125 ∧ st.depth = 1
    · rw [if_pos hstop] at h
      simp only [Option.some.injEq] at h
      subst h
      obtain ⟨h1, rfl, h3⟩ := hstop
      exact ⟨le_rfl, [], w, rfl, by simp, trivial, h1, h3⟩
    · rw [if_neg hstop] at h
      obtain ⟨h1, a, b, rfl, hlen, hq, hin, hd⟩ := ih h
      refine ⟨by omega, c :: a, b, rfl, ?_, ⟨hstop, hq⟩, hin, hd⟩
      simp only [List.length_cons]
      omega

theorem findStart_some {html : List Nat} {ms : List (List Nat)} {start : Nat}
    (h : findStart html ms = some start) : ∃ rest, html.drop start = 123 :: rest := by
  induction ms with
  | nil => simp [findStart] at h
  | cons m ms ih =>
    rw [findStart] at h
    cases hi : indexOf html m 0 with
    | none => rw [hi] at h; exact ih h
    | some idx => rw [hi] at h; exact indexOf_brace h

/-- Shape of every text that `extractYtInitialData` hands to `JSON.parse`: it is cut from
the position `start` of an opening brace and ends at a closing brace. -/
theorem isolatedSpan_some {html span : List Nat} (h : isolatedSpan html = some span) :
    ∃ start u rest, findStart html markers = some start ∧
      html.drop start = 123 :: (u ++ [125]) ++ rest ∧ span = 123 :: (u ++ [125]) ∧
      scanQuiet ⟨0, false, none⟩ (123 :: u) ∧
      (scanRun ⟨0, false, none⟩ (123 :: u)).inString = false ∧
      (scanRun ⟨0, false, none⟩ (123 :: u)).depth = 1 := by
  rw [isolatedSpan] at h
  cases hs : findStart html markers with
  | none => rw [hs] at h; exact absurd h (by simp)
  | some start =>
    rw [hs] at h
    simp only [scanSpan] at h
    cases hl : scanLoop (html.drop start) start 0 false none with
    | none => rw [hl] at h; exact absurd h (by simp)
    | some j =>
      rw [hl] at h
      simp only [Option.some.injEq] at h
      obtain ⟨rest0, hrest0⟩ := findStart_some hs
      obtain ⟨hle, a, b, hab, hlen, hq, hin, hd⟩ := @scanLoop_some _ _ _ ⟨0, false, none⟩ hl
      have ha : ∃ u, a = 123 :: u := by
        cases a with
        | nil =>
          rw [hrest0] at hab
          simp at hab
        | cons x u =>
          rw [hrest0] at hab
          simp only [List.cons_append, List.cons.injEq] at hab
          exact ⟨u, by rw [hab.1]⟩
      obtain ⟨u, rfl⟩ := ha
      refine ⟨start, u, b, rfl, ?_, ?_, hq, hin, hd⟩
      · rw [hab]; simp
      · rw [← h, slice, hab]
        have : j + 1 - start = (123 :: u).length + 1 := by omega
        rw [this]
        simp [List.take_append_eq_append_take]

/-- An accepted text that opens with a brace denotes an object, and the specification's
scan is back at depth zero at its end. -/
theorem parse_object {u : List Nat} {v : JSValue}
    (h : JSON.parse (123 :: (u ++ [125])) = some v) :
    (∃ props, v = .obj props) ∧
      (specRun ⟨0, false, false⟩ (123 :: (u ++ [125]))).depth = 0 := by
  rw [parse_open] at h
  have hsim : Sim ⟨.top, ⟨[.obj [] []], .keyOrClose⟩⟩ (specStep ⟨0, false, false⟩ 123) := by
    refine ⟨?_, ?_, ?_⟩ <;> simp [specStep, objCount, Frame.isObj, LexMode.inStr, LexMode.isEsc]
  have hroot : PState.Rooted ⟨[.obj [] []], .keyOrClose⟩ := Or.inl rfl
  constructor
  · obtain ⟨s', hs', hfin⟩ := Option.bind_eq_some.mp h
    obtain ⟨p, hres, -, -, hr⟩ := finish_some hfin
    exact result_rooted hres (hr (run_rooted hs' hroot))
  · obtain ⟨-, hin, hdepth⟩ := closing_brace hsim hroot h
    rw [specRun_cons, specRun_append]
    generalize specRun (specStep ⟨0, false, false⟩ 123) u = r at hin hdepth
    simp [specRun, specStep, hin, hdepth]

/-- An accepted text that opens with a brace denotes an object. -/
theorem parse_head_object {t : List Nat} {v : JSValue} (hhead : t.head? = some 123)
    (h : JSON.parse t = some v) : ∃ props, v = .obj props := by
  cases t with
  | nil => simp at hhead
  | cons c u =>
    simp only [List.head?_cons, Option.some.injEq] at hhead
    subst hhead
    rw [parse_open] at h
    obtain ⟨s', hs', hfin⟩ := Option.bind_eq_some.mp h
    obtain ⟨p, hres, -, -, hr⟩ := finish_some hfin
    exact result_rooted hres (hr (run_rooted hs' (Or.inl rfl)))

theorem no_backslash_unambiguous {t : List Nat} (h : 92 ∉ t) :
    quotesUnambiguous 0 t = true := by
  induction t with
  | nil => rfl
  | cons c t ih =>
    rw [List.mem_cons, not_or] at h
    rw [quotesUnambiguous, if_neg (fun hc => h.1 hc.symm), ih h.2]
    simp

theorem onlyQuoteEscapes_unambiguous {t : List Nat} {run : Nat} (hrun : run ≤ 1)
    (hnext : run = 1 → t.head? = some 34) (h : onlyQuoteEscapes t = true) :
    quotesUnambiguous run t = true := by
  induction t generalizing run with
  | nil => rfl
  | cons c t ih =>
    rw [quotesUnambiguous]
    by_cases h92 : c = 92
    · rw [if_pos h92]
      subst h92
      have hrun0 : run = 0 := by
        rcases Nat.le_one_iff_eq_zero_or_eq_one.mp hrun with h0 | h1
        · exact h0
        · have := hnext h1
          simp at this
      subst hrun0
      cases t with
      | nil => simp [onlyQuoteEscapes] at h
      | cons d t =>
        rw [onlyQuoteEscapes] at h
        simp only [ne_eq, not_true_eq_false, decide_False, Bool.false_or, Bool.and_eq_true,
          decide_eq_true_eq] at h
        have hd : d = 34 := by simpa using h.1
        exact ih (by omega) (fun _ => by rw [hd]; rfl) h.2
    · rw [if_neg h92]
      have htail : onlyQuoteEscapes t = true := by
        cases t with
        | nil => rfl
        | cons d t =>
          rw [onlyQuoteEscapes] at h
          simp only [Bool.and_eq_true] at h
          exact h.2
      rw [ih (by omega) (by omega) htail]
      simp
      omega

/-! ## Claims about extractYtInitialData -/

/-- When the marker search starts the scan at the opening brace of an accepted object
text with unambiguous escaped quotes, that text is isolated and its value returned. -/
theorem extract_object {pre t post : List Nat} {v : JSValue}
    (hstart : findStart (pre ++ t ++ post) markers = some pre.length)
    (hhead : t.head? = some 123) (hlast : t.getLast? = some 125)
    (hparse : JSON.parse t = some v) (hq : quotesUnambiguous 0 t = true) :
    isolatedSpan (pre ++ t ++ post) = some t ∧ extractYtInitialData (pre ++ t ++ post) = v := by
  have hspan : isolatedSpan (pre ++ t ++ post) = some t := by
    rw [isolatedSpan, hstart]
    exact scanSpan_object hhead hlast hparse hq
  refine ⟨hspan, ?_⟩
  rw [extract_eq, hspan]
  simp only [hparse, Option.getD_some]

theorem findStart_marker (m t post : List Nat) (hm : m ∈ markers)
    (hprio : ∀ m' ∈ markers.takeWhile (fun m' => decide (m' ≠ m)), ¬ m' <:+: m ++ t ++ post)
    (hhead : t.head? = some 123) :
    findStart (m ++ t ++ post) markers = some m.length := by
  cases t with
  | nil => simp at hhead
  | cons c u =>
    simp only [List.head?_cons, Option.some.injEq] at hhead
    subst hhead
    have e : m ++ 123 :: u ++ post = m ++ 123 :: (u ++ post) := by simp
    rw [e] at hprio ⊢
    exact findStart_at_marker m _ markers hm hprio

/-- C1 (counterexample): after the marker `window.ytInitialData =` stands the valid
object text `{"a":{}}`, yet a higher-priority marker in the trailing text makes
`extractYtInitialData` isolate `{}` and return the empty object. -/
theorem C1_counterexample_marker_priority :
    utf16 "window.ytInitialData =" ∈ markers ∧
    JSON.parse (utf16 "\x7b\"a\":\x7b\x7d\x7d") = some (.obj [(utf16 "a", .obj [])]) ∧
    isolatedSpan (utf16 "window.ytInitialData =" ++ utf16 "\x7b\"a\":\x7b\x7d\x7d"
      ++ utf16 ";var ytInitialData =\x7b\x7d;") = some (utf16 "\x7b\x7d") ∧
    extractYtInitialData (utf16 "window.ytInitialData =" ++ utf16 "\x7b\"a\":\x7b\x7d\x7d"
      ++ utf16 ";var ytInitialData =\x7b\x7d;") = .obj [] ∧
    extractYtInitialData (utf16 "window.ytInitialData =" ++ utf16 "\x7b\"a\":\x7b\x7d\x7d"
      ++ utf16 ";var ytInitialData =\x7b\x7d;") ≠ .obj [(utf16 "a", .obj [])] := by
  refine ⟨by decide, rfl, rfl, rfl, ?_⟩
  rw [show extractYtInitialData (utf16 "window.ytInitialData =" ++ utf16 "\x7b\"a\":\x7b\x7d\x7d"
      ++ utf16 ";var ytInitialData =\x7b\x7d;") = .obj [] from rfl]
  simp

/-- C1 (amended): for `html = marker ++ jsonText ++ trailing` in which no marker listed
before `marker` occurs, where `jsonText` begins with `{`, ends with `}`, is accepted by
`JSON.parse` with value `v`, and has no quote preceded by an even, positive number of
backslashes (no string literal ends in an escaped backslash), `extractYtInitialData`
hands exactly `jsonText` to `JSON.parse` and returns `v`, whatever `trailing` is. -/
theorem C1_extract_parsed_value (marker jsonText trailing : List Nat) (v : JSValue)
    (hm : marker ∈ markers)
    (hprio : ∀ m' ∈ markers.takeWhile (fun m' => decide (m' ≠ marker)),
      ¬ m' <:+: marker ++ jsonText ++ trailing)
    (hhead : jsonText.head? = some 123) (hlast : jsonText.getLast? = some 125)
    (hparse : JSON.parse jsonText = some v)
    (hq : quotesUnambiguous 0 jsonText = true) :
    isolatedSpan (marker ++ jsonText ++ trailing) = some jsonText ∧
      extractYtInitialData (marker ++ jsonText ++ trailing) = v :=
  extract_object (findStart_marker marker jsonText trailing hm hprio hhead) hhead hlast hparse hq

/-- C1 (witness): the third marker, an object with a nested array, an escaped quote, an
escaped backslash inside a string and literal braces in a string, then garbage. -/
theorem C1_extract_parsed_value_witness :
    isolatedSpan (utf16 "window.ytInitialData =" ++ utf16 "\x7b\"a\":[1,\x7b\"b\":\"\x7d\\\"\x7b\\\\x\"\x7d]\x7d"
        ++ utf16 ";</script>\x7d\x7d\"") = some (utf16 "\x7b\"a\":[1,\x7b\"b\":\"\x7d\\\"\x7b\\\\x\"\x7d]\x7d") ∧
      extractYtInitialData (utf16 "window.ytInitialData ="
        ++ utf16 "\x7b\"a\":[1,\x7b\"b\":\"\x7d\\\"\x7b\\\\x\"\x7d]\x7d" ++ utf16 ";</script>\x7d\x7d\"")
        = .obj [(utf16 "a", .arr [.num ⟨false, 1, 0⟩, .obj [(utf16 "b", .str (utf16 "\x7d\"\x7b\\x"))]])] :=
  C1_extract_parsed_value (utf16 "window.ytInitialData =")
    (utf16 "\x7b\"a\":[1,\x7b\"b\":\"\x7d\\\"\x7b\\\\x\"\x7d]\x7d") (utf16 ";</script>\x7d\x7d\"") _
    (by decide) (by decide) rfl rfl rfl rfl

theorem scanStep_inString_depth (st : ScanState) (c : Nat) (h : st.inString = true) :
    (scanStep st c).depth = st.depth := by
  rw [scanStep]
  by_cases h1 : c = 34 ∧ st.prevChar ≠ some 92
  · rw [if_pos h1]
  · rw [if_neg h1, if_neg (by simp [h])]

theorem scanStep_escaped_quote (st : ScanState) (h : st.prevChar = some 92) :
    (scanStep st 34).inString = st.inString := by
  rw [scanStep, if_neg (by simp [h])]
  by_cases h2 : st.inString = false
  · rw [if_pos h2, if_neg (by omega), if_neg (by omega)]
  · rw [if_neg h2]

theorem scanStep_prevChar (st : ScanState) (c : Nat) : (scanStep st c).prevChar = some c := by
  rw [scanStep]
  by_cases h1 : c = 34 ∧ st.prevChar ≠ some 92
  · rw [if_pos h1]
  rw [if_neg h1]
  by_cases h2 : st.inString = false
  · rw [if_pos h2]
    by_cases h3 : c = 123
    · rw [if_pos h3]
    rw [if_neg h3]
    by_cases h4 : c = 125
    · rw [if_pos h4]
    · rw [if_neg h4]
  · rw [if_neg h2]

/-- C3: for every accepted JSON object text without any backslash, wherever it stands
(`pre` may be a marker), the scan started at its opening brace isolates the whole text;
on the way no brace inside a string literal (as the specification's scan delimits it)
changes the loop's depth; and after each of the three markers `{"title":"a}b"}` yields
the object with the single field `title = "a}b"`. -/
theorem C3_brace_inside_string (pre jsonText post : List Nat) (v : JSValue)
    (hhead : jsonText.head? = some 123) (hlast : jsonText.getLast? = some 125)
    (hparse : JSON.parse jsonText = some v) (hno : 92 ∉ jsonText) :
    scanSpan (pre ++ jsonText ++ post) pre.length = some jsonText ∧
    (∀ a c b, jsonText = a ++ c :: b → (c = 123 ∨ c = 125) →
      (specRun ⟨0, false, false⟩ a).inString = true →
      (scanRun ⟨0, false, none⟩ (a ++ [c])).depth = (scanRun ⟨0, false, none⟩ a).depth) ∧
    (∀ m ∈ markers, extractYtInitialData (m ++ utf16 "\x7b\"title\":\"a\x7db\"\x7d")
      = .obj [(utf16 "title", .str (utf16 "a\x7db"))]) := by
  have hq := no_backslash_unambiguous hno
  refine ⟨scanSpan_object hhead hlast hparse hq, ?_, ?_⟩
  · intro a c b hsplit _ hin
    have hqa : quotesUnambiguous 0 a = true := by
      rw [hsplit] at hq
      exact quotesUnambiguous_of_append hq
    have hag0 : Agree ⟨0, false, none⟩ ⟨0, false, false⟩ 0 := by
      refine ⟨rfl, rfl, ?_, ?_⟩ <;> simp
    obtain ⟨⟨run', hag⟩, -⟩ := agree_run hag0 hqa
    rw [scanRun_append]
    exact scanStep_inString_depth _ c (by rw [hag.2.1]; exact hin)
  · intro m hm
    simp only [markers, List.mem_cons, List.mem_singleton, List.not_mem_nil, or_false] at hm
    rcases hm with rfl | rfl | rfl <;> rfl

/-- C3 (witness): the object `{"title":"a}b","n":{"k":"{"}}` between a marker and a
closing tag. -/
theorem C3_brace_inside_string_witness :
    scanSpan (utf16 "var ytInitialData =" ++ utf16 "\x7b\"title\":\"a\x7db\",\"n\":\x7b\"k\":\"\x7b\"\x7d\x7d"
      ++ utf16 ";</script>") (utf16 "var ytInitialData =").length
      = some (utf16 "\x7b\"title\":\"a\x7db\",\"n\":\x7b\"k\":\"\x7b\"\x7d\x7d") :=
  (C3_brace_inside_string (utf16 "var ytInitialData =")
    (utf16 "\x7b\"title\":\"a\x7db\",\"n\":\x7b\"k\":\"\x7b\"\x7d\x7d") (utf16 ";</script>") _
    rfl rfl rfl (by decide)).1

/-- C4: for every accepted JSON object text in which every backslash is directly
followed by a quote, wherever it stands, the scan started at its opening brace isolates
the whole text; the quote of every `\"` leaves the in-string flag as it was; and after
each of the three markers `{"a":"x\"y"}` yields the object with the single string field
`a`. -/
theorem C4_escaped_quote (pre jsonText post : List Nat) (v : JSValue)
    (hhead : jsonText.head? = some 123) (hlast : jsonText.getLast? = some 125)
    (hparse : JSON.parse jsonText = some v) (hesc : onlyQuoteEscapes jsonText = true) :
    scanSpan (pre ++ jsonText ++ post) pre.length = some jsonText ∧
    (∀ a b, jsonText = a ++ 92 :: 34 :: b →
      (scanRun ⟨0, false, none⟩ (a ++ [92, 34])).inString
        = (scanRun ⟨0, false, none⟩ (a ++ [92])).inString) ∧
    (∀ m ∈ markers, extractYtInitialData (m ++ utf16 "\x7b\"a\":\"x\\\"y\"\x7d")
      = .obj [(utf16 "a", .str (utf16 "x\"y"))]) := by
  have hq := @onlyQuoteEscapes_unambiguous jsonText 0 (by omega) (by omega) hesc
  refine ⟨scanSpan_object hhead hlast hparse hq, ?_, ?_⟩
  · intro a b _
    have e : a ++ [92, 34] = (a ++ [92]) ++ [34] := by simp
    rw [e, scanRun_append _ (a ++ [92]) [34]]
    apply scanStep_escaped_quote
    rw [scanRun_append]
    exact scanStep_prevChar (scanRun ⟨0, false, none⟩ a) 92
  · intro m hm
    simp only [markers, List.mem_cons, List.mem_singleton, List.not_mem_nil, or_false] at hm
    rcases hm with rfl | rfl | rfl <;> rfl

/-- C4 (witness): the object `{"a":"x\"y","b":{"c":"\"}"}}` after a marker. -/
theorem C4_escaped_quote_witness :
    scanSpan (utf16 "window[\"ytInitialData\"] =" ++ utf16 "\x7b\"a\":\"x\\\"y\",\"b\":\x7b\"c\":\"\\\"\x7d\"\x7d\x7d"
      ++ utf16 ";") (utf16 "window[\"ytInitialData\"] =").length
      = some (utf16 "\x7b\"a\":\"x\\\"y\",\"b\":\x7b\"c\":\"\\\"\x7d\"\x7d\x7d") :=
  (C4_escaped_quote (utf16 "window[\"ytInitialData\"] =")
    (utf16 "\x7b\"a\":\"x\\\"y\",\"b\":\x7b\"c\":\"\\\"\x7d\"\x7d\x7d") (utf16 ";") _ rfl rfl rfl rfl).1

/-- C5 (failing input): in `{"a":"x\\"}` the string ends with an escaped backslash.
`JSON.parse` accepts the text, and the specification's scan is outside the string after
its closing quote; the loop of lines 32-46 still has `inString` set there, never sees
the closing brace, and `extractYtInitialData` returns `null`. -/
theorem C5_escaped_backslash_closes_string :
    JSON.parse (utf16 "\x7b\"a\":\"x\\\\\"\x7d") = some (.obj [(utf16 "a", .str (utf16 "x\\"))]) ∧
    (specRun ⟨0, false, false⟩ (utf16 "\x7b\"a\":\"x\\\\\"")).inString = false ∧
    (scanRun ⟨0, false, none⟩ (utf16 "\x7b\"a\":\"x\\\\\"")).inString = true ∧
    isolatedSpan (utf16 "var ytInitialData =" ++ utf16 "\x7b\"a\":\"x\\\\\"\x7d") = none ∧
    extractYtInitialData (utf16 "var ytInitialData =" ++ utf16 "\x7b\"a\":\"x\\\\\"\x7d") = .null :=
  ⟨rfl, rfl, rfl, rfl, rfl⟩

/-- C6: a text that contains none of the three markers yields `null`. -/
theorem C6_no_marker_null (html : List Nat) (h : ∀ m ∈ markers, ¬ m <:+: html) :
    extractYtInitialData html = .null := by
  rw [extractYtInitialData, findStart_none html markers h]

/-- C6 (witness): the empty string and a page without marker. -/
theorem C6_no_marker_null_witness :
    extractYtInitialData [] = .null ∧
      extractYtInitialData (utf16 "<html>ytInitialData = \x7b\"a\":1\x7d</html>") = .null :=
  ⟨C6_no_marker_null [] (by decide),
    C6_no_marker_null (utf16 "<html>ytInitialData = \x7b\"a\":1\x7d</html>") (by decide)⟩

theorem take_span (u rest : List Nat) :
    (123 :: (u ++ [125]) ++ rest).take (u.length + 2) = 123 :: (u ++ [125]) := by
  have : u.length + 2 = (123 :: (u ++ [125])).length := by simp
  rw [this, List.take_left]

/-- C7: let the marker search start the scan at `start`. If the brace depth, as the loop
counts it or as the specification counts it, is non-zero after every non-empty run of
code units from `start` on, `extractYtInitialData` returns `null`; and if the scan does
isolate a text that `JSON.parse` rejects, it returns `null` as well (the model is total:
nothing is raised). -/
theorem C7_unbalanced_or_malformed_null (html : List Nat) (start : Nat)
    (hstart : findStart html markers = some start) :
    ((∀ k, 0 < k → (scanRun ⟨0, false, none⟩ ((html.drop start).take k)).depth ≠ 0) →
      extractYtInitialData html = .null) ∧
    ((∀ k, 0 < k → (specRun ⟨0, false, false⟩ ((html.drop start).take k)).depth ≠ 0) →
      extractYtInitialData html = .null) ∧
    (∀ span, isolatedSpan html = some span → JSON.parse span = none →
      extractYtInitialData html = .null) := by
  refine ⟨?_, ?_, ?_⟩
  · intro hdepth
    rw [extract_eq]
    cases hspan : isolatedSpan html with
    | none => rfl
    | some span =>
      exfalso
      obtain ⟨start', u, rest, hs, hdrop, -, -, hin, hd⟩ := isolatedSpan_some hspan
      rw [hstart] at hs
      simp only [Option.some.injEq] at hs
      subst hs
      apply hdepth (u.length + 2) (by omega)
      rw [hdrop, take_span]
      have e : 123 :: (u ++ [125]) = (123 :: u) ++ [125] := by simp
      rw [e, scanRun_append]
      generalize scanRun ⟨0, false, none⟩ (123 :: u) = st at hin hd
      simp [scanRun, scanStep, hin, hd]
  · intro hdepth
    rw [extract_eq]
    cases hspan : isolatedSpan html with
    | none => rfl
    | some span =>
      cases hparse : JSON.parse span with
      | none => simp only [hparse, Option.getD_none]
      | some v =>
        exfalso
        obtain ⟨start', u, rest, hs, hdrop, rfl, -, -, -⟩ := isolatedSpan_some hspan
        rw [hstart] at hs
        simp only [Option.some.injEq] at hs
        subst hs
        apply hdepth (u.length + 2) (by omega)
        rw [hdrop, take_span]
        exact (parse_object hparse).2
  · intro span hspan hparse
    rw [extract_eq, hspan]
    simp only [hparse, Option.getD_none]

/-- C7 (witness): after the marker, `{"a}` leaves a string open and `{"a":tru}` is
balanced but is not JSON. -/
theorem C7_unbalanced_or_malformed_null_witness :
    extractYtInitialData (utf16 "var ytInitialData = \x7b\"a\x7d") = .null ∧
      extractYtInitialData (utf16 "var ytInitialData = \x7b\"a\":tru\x7d") = .null :=
  ⟨(C7_unbalanced_or_malformed_null (utf16 "var ytInitialData = \x7b\"a\x7d") 20 rfl).1
      (by
        intro k hk
        by_cases hk4 : k ≤ 4
        · interval_cases k <;> decide
        · rw [List.take_of_length_le (by simp [utf16]; omega)]
          decide),
    (C7_unbalanced_or_malformed_null (utf16 "var ytInitialData = \x7b\"a\":tru\x7d") 20 rfl).2.2
      (utf16 "\x7b\"a\":tru\x7d") rfl rfl⟩

/-- C8: whatever the input, `extractYtInitialData` returns either `null` or an object;
it returns an object exactly when the scan isolates a text that `JSON.parse` accepts, so
the handler's test `!initialData` holds exactly when extraction failed. -/
theorem C8_success_is_object (html : List Nat) :
    (extractYtInitialData html = .null ∨ ∃ props, extractYtInitialData html = .obj props) ∧
    (∀ span v, isolatedSpan html = some span → JSON.parse span = some v →
      extractYtInitialData html = v ∧ ∃ props, v = .obj props) ∧
    ((!truthy (extractYtInitialData html)) = true ↔
      ¬ ∃ span v, isolatedSpan html = some span ∧ JSON.parse span = some v) := by
  have key : ∀ span v, isolatedSpan html = some span → JSON.parse span = some v →
      extractYtInitialData html = v ∧ ∃ props, v = .obj props := by
    intro span v hspan hparse
    constructor
    · rw [extract_eq, hspan]
      simp only [hparse, Option.getD_some]
    · obtain ⟨-, u, -, -, -, rfl, -, -, -⟩ := isolatedSpan_some hspan
      exact parse_head_object (t := 123 :: (u ++ [125])) rfl hparse
  refine ⟨?_, key, ?_⟩
  · cases hspan : isolatedSpan html with
    | none => left; rw [extract_eq, hspan]
    | some span =>
      cases hparse : JSON.parse span with
      | none => left; rw [extract_eq, hspan]; simp only [hparse, Option.getD_none]
      | some v =>
        obtain ⟨h1, props, h2⟩ := key span v hspan hparse
        right; exact ⟨props, by rw [h1, h2]⟩
  · constructor
    · rintro hfalsy ⟨span, v, hspan, hparse⟩
      obtain ⟨h1, props, h2⟩ := key span v hspan hparse
      rw [h1, h2] at hfalsy
      simp [truthy] at hfalsy
    · intro hnone
      rw [extract_eq]
      cases hspan : isolatedSpan html with
      | none => rfl
      | some span =>
        cases hparse : JSON.parse span with
        | none => simp only [hparse, Option.getD_none]; rfl
        | some v => exact absurd ⟨span, v, hspan, hparse⟩ hnone

/-! ## Claims about extractVideos -/

/-- C2: on the specification's synthetic document the pipeline yields exactly one
record, with the stated id, title, last thumbnail, length, channel and both URLs. -/
theorem C2_end_to_end (numToString : JSNumber → List Nat) :
    extractVideos numToString (extractYtInitialData (utf16 "<html>var ytInitialData = \x7b\"contents\":\x7b\"twoColumnSearchResultsRenderer\":\x7b\"primaryContents\":\x7b\"sectionListRenderer\":\x7b\"contents\":[\x7b\"itemSectionRenderer\":\x7b\"contents\":[\x7b\"videoRenderer\":\x7b\"videoId\":\"abc123\",\"title\":\x7b\"simpleText\":\"Test Video\"\x7d,\"thumbnail\":\x7b\"thumbnails\":[\x7b\"url\":\"http://x/low.jpg\"\x7d,\x7b\"url\":\"http://x/high.jpg\"\x7d]\x7d,\"lengthText\":\x7b\"simpleText\":\"3:21\"\x7d,\"ownerText\":\x7b\"runs\":[\x7b\"text\":\"Chan\"\x7d]\x7d\x7d\x7d]\x7d\x7d]\x7d\x7d\x7d\x7d\x7d</html>")) =
      [{ videoId := .str (utf16 "abc123"), title := .str (utf16 "Test Video"),
         thumbnail := .str (utf16 "http://x/high.jpg"), length := .str (utf16 "3:21"),
         channel := .str (utf16 "Chan"),
         embed := .str (utf16 "https://www.youtube-nocookie.com/embed/abc123"),
         watch := .str (utf16 "https://www.youtube.com/watch?v=abc123") }] := rfl

theorem getProp_obj (props : List (List Nat × JSValue)) (k : List Nat) :
    getProp (.obj props) k = some (getPropOpt (.obj props) k) := rfl

theorem itemsLoop_ok (numToString : JSNumber → List Nat) (its : List JSValue)
    (results : List VideoRecord)
    (hobj : ∀ it ∈ its, ∃ props, it = .obj props)
    (hok : ∀ it ∈ its, truthy (videoRendererOf it) = true →
      (buildRecord numToString (videoRendererOf it)).isSome = true) :
    itemsLoop numToString its results = .ok (results ++ its.filterMap (recordOf numToString)) := by
  induction its generalizing results with
  | nil => simp [itemsLoop]
  | cons it its ih =>
    obtain ⟨props, rfl⟩ := hobj it (List.mem_cons_self _ _)
    have hobj' : ∀ it ∈ its, ∃ props, it = .obj props :=
      fun x hx => hobj x (List.mem_cons_of_mem _ hx)
    have hok' : ∀ it ∈ its, truthy (videoRendererOf it) = true →
        (buildRecord numToString (videoRendererOf it)).isSome = true :=
      fun x hx => hok x (List.mem_cons_of_mem _ hx)
    rw [itemsLoop, getProp_obj]
    simp only
    by_cases ht : truthy (videoRendererOf (.obj props)) = true
    · have hsome := hok _ (List.mem_cons_self _ _) ht
      obtain ⟨r, hr⟩ := Option.isSome_iff_exists.mp hsome
      have hrec : recordOf numToString (.obj props) = some r := by
        rw [recordOf, if_pos ht, hr]
      rw [videoRendererOf] at ht hr
      rw [if_pos ht, hr]
      simp only
      rw [ih _ hobj' hok', List.filterMap_cons_some hrec]
      simp
    · have hrec : recordOf numToString (.obj props) = none := by
        rw [recordOf, if_neg ht]
      rw [videoRendererOf] at ht
      rw [if_neg ht, ih _ hobj' hok', List.filterMap_cons_none hrec]

theorem sectionsLoop_ok (numToString : JSNumber → List Nat) (sections : List JSValue)
    (items : List (List JSValue)) (results : List VideoRecord)
    (hitems : sections.map itemsOf = items.map JSValue.arr)
    (hobj : ∀ its ∈ items, ∀ it ∈ its, ∃ props, it = .obj props)
    (hok : ∀ its ∈ items, ∀ it ∈ its, truthy (videoRendererOf it) = true →
      (buildRecord numToString (videoRendererOf it)).isSome = true) :
    sectionsLoop numToString sections results
      = .ok (results ++ items.flatten.filterMap (recordOf numToString)) := by
  induction sections generalizing items results with
  | nil =>
    cases items with
    | nil => simp [sectionsLoop]
    | cons a b => simp at hitems
  | cons sec sections ih =>
    cases items with
    | nil => simp at hitems
    | cons its items =>
      simp only [List.map_cons, List.cons.injEq] at hitems
      obtain ⟨hsec, hrest⟩ := hitems
      rw [itemsOf] at hsec
      rw [sectionsLoop, hsec]
      simp only [jsOr, truthy, if_true]
      rw [itemsLoop_ok numToString its results (hobj its (List.mem_cons_self _ _))
        (hok its (List.mem_cons_self _ _))]
      simp only
      rw [ih items _ hrest (fun x hx => hobj x (List.mem_cons_of_mem _ hx))
        (fun x hx => hok x (List.mem_cons_of_mem _ hx))]
      simp

/-- C9 (counterexample): both items of the only section are JSON objects with a truthy
`videoRenderer`, but the first has `null` in its thumbnail list; building its record
throws, the function-wide `catch` ends the walk, and no record at all is returned. -/
theorem C9_counterexample_throwing_item :
    ∃ doc it1 it2 : JSValue,
      JSON.parse (utf16 "\x7b\"contents\":\x7b\"twoColumnSearchResultsRenderer\":\x7b\"primaryContents\":\x7b\"sectionListRenderer\":\x7b\"contents\":[\x7b\"itemSectionRenderer\":\x7b\"contents\":[\x7b\"videoRenderer\":\x7b\"videoId\":\"a\",\"thumbnail\":\x7b\"thumbnails\":[null]\x7d\x7d\x7d,\x7b\"videoRenderer\":\x7b\"videoId\":\"b\"\x7d\x7d]\x7d\x7d]\x7d\x7d\x7d\x7d\x7d") = some doc ∧
      sectionList doc = .arr [.obj [(utf16 "itemSectionRenderer",
        .obj [(utf16 "contents", .arr [it1, it2])])]] ∧
      (∃ props, it1 = .obj props) ∧ (∃ props, it2 = .obj props) ∧
      truthy (videoRendererOf it1) = true ∧ truthy (videoRendererOf it2) = true ∧
      extractVideos (fun _ => []) doc = [] :=
  ⟨_, .obj [(utf16 "videoRenderer", .obj [(utf16 "videoId", .str (utf16 "a")),
      (utf16 "thumbnail", .obj [(utf16 "thumbnails", .arr [.null])])])],
    .obj [(utf16 "videoRenderer", .obj [(utf16 "videoId", .str (utf16 "b"))])],
    rfl, rfl, ⟨_, rfl⟩, ⟨_, rfl⟩, rfl, rfl, rfl⟩

theorem filterMap_recordOf_length (numToString : JSNumber → List Nat) (l : List JSValue)
    (hok : ∀ it ∈ l, truthy (videoRendererOf it) = true →
      (buildRecord numToString (videoRendererOf it)).isSome = true) :
    (l.filterMap (recordOf numToString)).length
      = (l.filter fun it => truthy (videoRendererOf it)).length := by
  induction l with
  | nil => rfl
  | cons it l ih =>
    have ih' := ih (fun x hx => hok x (List.mem_cons_of_mem _ hx))
    by_cases ht : truthy (videoRendererOf it) = true
    · obtain ⟨r, hr⟩ := Option.isSome_iff_exists.mp (hok it (List.mem_cons_self _ _) ht)
      have hrec : recordOf numToString it = some r := by rw [recordOf, if_pos ht, hr]
      rw [List.filterMap_cons_some hrec, List.filter_cons_of_pos (by simpa using ht),
        List.length_cons, List.length_cons, ih']
    · have hrec : recordOf numToString it = none := by rw [recordOf, if_neg ht]
      rw [List.filterMap_cons_none hrec, List.filter_cons_of_neg (by simpa using ht), ih']

/-- C9 (amended): when the section list is an array, every section's
`itemSectionRenderer.contents` is an array of JSON objects, and building the record of
every truthy `videoRenderer` completes without an exception, `extractVideos` returns
the filter-map of the flattened item lists, in section-then-item order: one record for
each item with a truthy `videoRenderer` and none for the others. -/
theorem C9_records_in_traversal_order (numToString : JSNumber → List Nat) (doc : JSValue)
    (sections : List JSValue) (items : List (List JSValue))
    (hpath : sectionList doc = .arr sections)
    (hitems : sections.map itemsOf = items.map JSValue.arr)
    (hobj : ∀ its ∈ items, ∀ it ∈ its, ∃ props, it = .obj props)
    (hok : ∀ its ∈ items, ∀ it ∈ its, truthy (videoRendererOf it) = true →
      (buildRecord numToString (videoRendererOf it)).isSome = true) :
    extractVideos numToString doc = items.flatten.filterMap (recordOf numToString) ∧
    (extractVideos numToString doc).length
      = (items.flatten.filter fun it => truthy (videoRendererOf it)).length := by
  have h : extractVideos numToString doc
      = items.flatten.filterMap (recordOf numToString) := by
    rw [extractVideos, hpath]
    simp only
    rw [sectionsLoop_ok numToString sections items [] hitems hobj hok]
    simp
  refine ⟨h, ?_⟩
  rw [h]
  apply filterMap_recordOf_length
  intro it hit
  obtain ⟨its, hits, hmem⟩ := List.mem_flatten.mp hit
  exact hok its hits it hmem

/-- C9 (witness): two sections; the first holds a video and a shelf, the second a video
without fields. The two videos are returned in order, the shelf is skipped. -/
theorem C9_records_in_traversal_order_witness :
    extractVideos (fun _ => [])
      (.obj [(utf16 "contents", .obj [(utf16 "twoColumnSearchResultsRenderer",
        .obj [(utf16 "primaryContents", .obj [(utf16 "sectionListRenderer",
          .obj [(utf16 "contents", .arr [
            .obj [(utf16 "itemSectionRenderer", .obj [(utf16 "contents", .arr [
              .obj [(utf16 "videoRenderer", .obj [(utf16 "videoId", .str (utf16 "a"))])],
              .obj [(utf16 "shelfRenderer", .obj [])]])])],
            .obj [(utf16 "itemSectionRenderer", .obj [(utf16 "contents", .arr [
              .obj [(utf16 "videoRenderer", .obj [])]])])]])])])])])])
      = [⟨.str (utf16 "a"), .str [], .null, .null, .null,
           .str (utf16 "https://www.youtube-nocookie.com/embed/a"),
           .str (utf16 "https://www.youtube.com/watch?v=a")⟩,
         ⟨.undefined, .str [], .null, .null, .null, .null, .null⟩] :=
  (C9_records_in_traversal_order (fun _ => [])
    (.obj [(utf16 "contents", .obj [(utf16 "twoColumnSearchResultsRenderer",
      .obj [(utf16 "primaryContents", .obj [(utf16 "sectionListRenderer",
        .obj [(utf16 "contents", .arr [
          .obj [(utf16 "itemSectionRenderer", .obj [(utf16 "contents", .arr [
            .obj [(utf16 "videoRenderer", .obj [(utf16 "videoId", .str (utf16 "a"))])],
            .obj [(utf16 "shelfRenderer", .obj [])]])])],
          .obj [(utf16 "itemSectionRenderer", .obj [(utf16 "contents", .arr [
            .obj [(utf16 "videoRenderer", .obj [])]])])]])])])])])])
    [.obj [(utf16 "itemSectionRenderer", .obj [(utf16 "contents", .arr [
        .obj [(utf16 "videoRenderer", .obj [(utf16 "videoId", .str (utf16 "a"))])],
        .obj [(utf16 "shelfRenderer", .obj [])]])])],
      .obj [(utf16 "itemSectionRenderer", .obj [(utf16 "contents", .arr [
        .obj [(utf16 "videoRenderer", .obj [])]])])]]
    [[.obj [(utf16 "videoRenderer", .obj [(utf16 "videoId", .str (utf16 "a"))])],
        .obj [(utf16 "shelfRenderer", .obj [])]],
      [.obj [(utf16 "videoRenderer", .obj [])]]]
    rfl rfl
    (by
      intro its hits it hit
      simp only [List.mem_cons, List.mem_singleton, List.not_mem_nil, or_false] at hits
      rcases hits with rfl | rfl <;>
        simp only [List.mem_cons, List.mem_singleton, List.not_mem_nil, or_false] at hit
      · rcases hit with rfl | rfl <;> exact ⟨_, rfl⟩
      · subst hit; exact ⟨_, rfl⟩)
    (by
      intro its hits it hit htruthy
      simp only [List.mem_cons, List.mem_singleton, List.not_mem_nil, or_false] at hits
      rcases hits with rfl | rfl <;>
        simp only [List.mem_cons, List.mem_singleton, List.not_mem_nil, or_false] at hit
      · rcases hit with rfl | rfl
        · rfl
        · exact absurd htruthy (by decide)
      · subst hit; rfl)).1.trans rfl

theorem lookup_of_not_hasOwn (k : List Nat) (props : List (List Nat × JSValue))
    (h : hasOwn k props = false) : lookup k props = .undefined := by
  induction props with
  | nil => rfl
  | cons kv props ih =>
    obtain ⟨k', v⟩ := kv
    simp only [hasOwn, List.any_cons, Bool.or_eq_false_iff, decide_eq_false_iff_not] at h
    rw [lookup, if_neg h.1]
    exact ih (by simpa [hasOwn] using h.2)

theorem chain_undefined (ks : List (List Nat)) :
    ks.foldl getPropOpt .undefined = .undefined := by
  induction ks with
  | nil => rfl
  | cons k ks ih => exact ih

/-- A defined value reached by optional chaining is reached along own properties of
nested objects. -/
theorem pathOf_of_chain (ks : List (List Nat)) (v w : JSValue)
    (h : ks.foldl getPropOpt v = w) (hw : w ≠ .undefined) : pathOf v ks = some w := by
  induction ks generalizing v with
  | nil => simp only [List.foldl_nil] at h; rw [pathOf, h]
  | cons k ks ih =>
    rw [List.foldl_cons] at h
    have hundef : getPropOpt v k = .undefined → False := by
      intro hu
      rw [hu, chain_undefined] at h
      exact hw h.symm
    cases v with
    | obj props =>
      rw [pathOf]
      by_cases hk : hasOwn k props = true
      · rw [if_pos hk]
        exact ih _ h
      · exact (hundef (lookup_of_not_hasOwn k props (by simpa using hk))).elim
    | undefined => exact (hundef rfl).elim
    | null => exact (hundef rfl).elim
    | bool b => exact (hundef rfl).elim
    | num n => exact (hundef rfl).elim
    | str s => exact (hundef rfl).elim
    | arr xs => exact (hundef rfl).elim

/-- C10: when following the own properties `contents`, `twoColumnSearchResultsRenderer`,
`primaryContents`, `sectionListRenderer`, `contents` from the document does not end at
an array (a step is missing, meets a non-object, or the end is no array),
`extractVideos` returns the empty list. -/
theorem C10_missing_path_empty (numToString : JSNumber → List Nat) (doc : JSValue)
    (h : ∀ xs, pathOf doc sectionPath ≠ some (.arr xs)) :
    extractVideos numToString doc = [] := by
  rw [extractVideos]
  cases hs : sectionList doc with
  | arr xs =>
    exact absurd (pathOf_of_chain sectionPath doc (.arr xs) hs (by simp)) (h xs)
  | undefined => rfl
  | null => rfl
  | bool b => rfl
  | num n => rfl
  | str s => rfl
  | obj props => rfl

/-- C10 (witness): `null`, a number, an array, an object without `contents`, and a
document whose section list is an object instead of an array. -/
theorem C10_missing_path_empty_witness :
    extractVideos (fun _ => []) .null = [] ∧
    extractVideos (fun _ => []) (.num ⟨false, 5, 0⟩) = [] ∧
    extractVideos (fun _ => []) (.arr [.obj []]) = [] ∧
    extractVideos (fun _ => []) (.obj [(utf16 "other", .arr [])]) = [] ∧
    extractVideos (fun _ => [])
      (.obj [(utf16 "contents", .obj [(utf16 "twoColumnSearchResultsRenderer",
        .obj [(utf16 "primaryContents", .obj [(utf16 "sectionListRenderer",
          .obj [(utf16 "contents", .obj [])])])])])]) = [] :=
  ⟨C10_missing_path_empty _ _ (by intro xs h; cases h),
    C10_missing_path_empty _ _ (by intro xs h; cases h),
    C10_missing_path_empty _ _ (by intro xs h; cases h),
    C10_missing_path_empty _ _ (by intro xs h; cases h),
    C10_missing_path_empty _ _ (by intro xs h; cases h)⟩

/-! ## The loops of extractVideos in general -/

theorem extractVideos_eq_tryBlock (numToString : JSNumber → List Nat) (doc : JSValue) :
    extractVideos numToString doc =
      match tryBlock numToString doc with
      | .ok results => results
      | .error results => results := by
  rw [extractVideos, tryBlock]
  cases sectionList doc <;> rfl

theorem getProp_some {v w : JSValue} {k : List Nat} (h : getProp v k = some w) :
    w = getPropOpt v k := by
  cases v <;> simp [getProp] at h <;> rw [← h] <;> rfl

theorem itemStep_some {numToString : JSNumber → List Nat} {it : JSValue}
    (h : itemStep numToString it ≠ none) :
    itemStep numToString it = some (recordOf numToString it) := by
  rw [itemStep] at h ⊢
  cases hg : getProp it (utf16 "videoRenderer") with
  | none => rw [hg] at h; exact absurd rfl h
  | some vr =>
    rw [hg] at h
    simp only at h ⊢
    have hvr := getProp_some hg
    rw [recordOf, videoRendererOf, ← hvr]
    by_cases ht : truthy vr = true
    · rw [if_pos ht] at h
      rw [if_pos ht, if_pos ht]
      cases hb : buildRecord numToString vr with
      | none => rw [hb] at h; exact absurd rfl h
      | some r => rfl
    · rw [if_neg ht, if_neg ht]

theorem itemsLoop_cons (numToString : JSNumber → List Nat) (it : JSValue)
    (rest : List JSValue) (results : List VideoRecord) :
    itemsLoop numToString (it :: rest) results =
      match itemStep numToString it with
      | none => .error results
      | some none => itemsLoop numToString rest results
      | some (some r) => itemsLoop numToString rest (results ++ [r]) := by
  rw [itemsLoop, itemStep]
  cases getProp it (utf16 "videoRenderer") with
  | none => rfl
  | some vr =>
    simp only
    by_cases ht : truthy vr = true
    · rw [if_pos ht, if_pos ht]
      cases buildRecord numToString vr <;> rfl
    · rw [if_neg ht, if_neg ht]

/-- Items that do not throw are all visited: the loop appends their records in order. -/
theorem itemsLoop_quiet (numToString : JSNumber → List Nat) (its : List JSValue)
    (results : List VideoRecord) (h : ∀ it ∈ its, itemStep numToString it ≠ none) :
    itemsLoop numToString its results
      = .ok (results ++ its.filterMap (recordOf numToString)) := by
  induction its generalizing results with
  | nil => simp [itemsLoop]
  | cons it its ih =>
    have h1 := itemStep_some (h it (List.mem_cons_self _ _))
    have ih' := fun rs => ih rs (fun x hx => h x (List.mem_cons_of_mem _ hx))
    rw [itemsLoop_cons, h1]
    cases hr : recordOf numToString it with
    | none => simp only; rw [ih', List.filterMap_cons_none hr]
    | some r =>
      simp only
      rw [ih', List.filterMap_cons_some hr]
      simp

/-- The first item that throws ends the loop with the records pushed before it. -/
theorem itemsLoop_throw (numToString : JSNumber → List Nat) (pre : List JSValue)
    (bad : JSValue) (post : List JSValue) (results : List VideoRecord)
    (h : ∀ it ∈ pre, itemStep numToString it ≠ none) (hbad : itemStep numToString bad = none) :
    itemsLoop numToString (pre ++ bad :: post) results
      = .error (results ++ pre.filterMap (recordOf numToString)) := by
  induction pre generalizing results with
  | nil => rw [List.nil_append, itemsLoop_cons, hbad]; simp
  | cons it pre ih =>
    have h1 := itemStep_some (h it (List.mem_cons_self _ _))
    have ih' := fun rs => ih rs (fun x hx => h x (List.mem_cons_of_mem _ hx))
    rw [List.cons_append, itemsLoop_cons, h1]
    cases hr : recordOf numToString it with
    | none => simp only; rw [ih', List.filterMap_cons_none hr]
    | some r =>
      simp only
      rw [ih', List.filterMap_cons_some hr]
      simp

theorem sectionsLoop_cons (numToString : JSNumber → List Nat) (sec : JSValue)
    (rest : List JSValue) (results : List VideoRecord) :
    sectionsLoop numToString (sec :: rest) results =
      match sectionItems sec with
      | none => .error results
      | some items =>
        match itemsLoop numToString items results with
        | .ok results' => sectionsLoop numToString rest results'
        | .error results' => .error results' := by
  rw [sectionsLoop, sectionItems, itemsOf]
  cases jsOr (getPropOpt (getPropOpt sec (utf16 "itemSectionRenderer")) (utf16 "contents"))
    (.arr []) with
  | arr items => cases h : itemsLoop numToString items results <;> simp only [h]
  | undefined => rfl
  | null => rfl
  | bool b => rfl
  | num n => rfl
  | str s => rfl
  | obj props => rfl

theorem sectionsLoop_quiet (numToString : JSNumber → List Nat) (sections : List JSValue)
    (results : List VideoRecord)
    (h : ∀ sec ∈ sections, ∃ items, sectionItems sec = some items ∧
      ∀ it ∈ items, itemStep numToString it ≠ none) :
    sectionsLoop numToString sections results
      = .ok (results ++ (allItems sections).filterMap (recordOf numToString)) := by
  induction sections generalizing results with
  | nil => simp [sectionsLoop, allItems]
  | cons sec sections ih =>
    obtain ⟨items, hitems, hq⟩ := h sec (List.mem_cons_self _ _)
    rw [sectionsLoop_cons, hitems]
    simp only
    rw [itemsLoop_quiet numToString items results hq]
    simp only
    rw [ih _ (fun x hx => h x (List.mem_cons_of_mem _ hx))]
    simp [allItems, hitems]

theorem sectionsLoop_throw (numToString : JSNumber → List Nat) (pre : List JSValue)
    (sec : JSValue) (post : List JSValue) (good : List JSValue) (results : List VideoRecord)
    (h : ∀ s ∈ pre, ∃ items, sectionItems s = some items ∧
      ∀ it ∈ items, itemStep numToString it ≠ none)
    (hgood : ∀ it ∈ good, itemStep numToString it ≠ none)
    (hfail : (sectionItems sec = none ∧ good = []) ∨
      ∃ bad rest, sectionItems sec = some (good ++ bad :: rest) ∧
        itemStep numToString bad = none) :
    sectionsLoop numToString (pre ++ sec :: post) results
      = .error (results ++ (allItems pre ++ good).filterMap (recordOf numToString)) := by
  induction pre generalizing results with
  | nil =>
    rw [List.nil_append, sectionsLoop_cons]
    rcases hfail with ⟨hnone, rfl⟩ | ⟨bad, rest, hsome, hbad⟩
    · rw [hnone]; simp [allItems]
    · rw [hsome]
      simp only
      rw [itemsLoop_throw numToString good bad rest results hgood hbad]
      simp [allItems]
  | cons s pre ih =>
    obtain ⟨items, hitems, hq⟩ := h s (List.mem_cons_self _ _)
    rw [List.cons_append, sectionsLoop_cons, hitems]
    simp only
    rw [itemsLoop_quiet numToString items results hq]
    simp only
    rw [ih _ (fun x hx => h x (List.mem_cons_of_mem _ hx))]
    simp [allItems, hitems]

/-! ## Claims about failures inside extractVideos -/

theorem extractVideos_eq_caught (numToString : JSNumber → List Nat) (doc : JSValue) :
    extractVideos numToString doc = caught (tryBlock numToString doc) :=
  extractVideos_eq_tryBlock numToString doc

theorem itemsLoop_built (numToString : JSNumber → List Nat) (its : List JSValue)
    (results : List VideoRecord) :
    ∀ r ∈ caught (itemsLoop numToString its results),
      r ∈ results ∨ ∃ vr, truthy vr = true ∧ buildRecord numToString vr = some r := by
  induction its generalizing results with
  | nil => intro r hr; exact Or.inl hr
  | cons it its ih =>
    intro r hr
    rw [itemsLoop] at hr
    cases hg : getProp it (utf16 "videoRenderer") with
    | none => rw [hg] at hr; exact Or.inl hr
    | some vr =>
      rw [hg] at hr
      simp only at hr
      by_cases ht : truthy vr = true
      · rw [if_pos ht] at hr
        cases hb : buildRecord numToString vr with
        | none => rw [hb] at hr; exact Or.inl hr
        | some r0 =>
          rw [hb] at hr
          rcases ih _ r hr with h | h
          · rcases List.mem_append.mp h with h | h
            · exact Or.inl h
            · rw [List.mem_singleton] at h
              subst h
              exact Or.inr ⟨vr, ht, hb⟩
          · exact Or.inr h
      · rw [if_neg ht] at hr
        exact ih _ r hr

theorem sectionsLoop_built (numToString : JSNumber → List Nat) (sections : List JSValue)
    (results : List VideoRecord) :
    ∀ r ∈ caught (sectionsLoop numToString sections results),
      r ∈ results ∨ ∃ vr, truthy vr = true ∧ buildRecord numToString vr = some r := by
  induction sections generalizing results with
  | nil => intro r hr; exact Or.inl hr
  | cons sec sections ih =>
    intro r hr
    rw [sectionsLoop_cons] at hr
    cases hs : sectionItems sec with
    | none => rw [hs] at hr; exact Or.inl hr
    | some items =>
      rw [hs] at hr
      simp only at hr
      have hitems := itemsLoop_built numToString items results
      cases hl : itemsLoop numToString items results with
      | error rs =>
        rw [hl] at hr hitems
        exact hitems r hr
      | ok rs =>
        rw [hl] at hr hitems
        rcases ih rs r hr with h | h
        · exact hitems r h
        · exact Or.inr h

/-- C11: for every value `doc` the call returns: either the `try` block completes and
its `results` is returned, or an exception thrown inside it is caught and `results`
as built so far is returned; and every element of the returned list is a record built
from a truthy `videoRenderer`. -/
theorem C11_never_raises (numToString : JSNumber → List Nat) (doc : JSValue) :
    (∃ results, (tryBlock numToString doc = .ok results ∨
        tryBlock numToString doc = .error results) ∧
      extractVideos numToString doc = results) ∧
    ∀ r ∈ extractVideos numToString doc,
      ∃ vr, truthy vr = true ∧ buildRecord numToString vr = some r := by
  constructor
  · rw [extractVideos_eq_caught]
    cases h : tryBlock numToString doc with
    | ok rs => exact ⟨rs, Or.inl rfl, rfl⟩
    | error rs => exact ⟨rs, Or.inr rfl, rfl⟩
  · intro r hr
    rw [extractVideos_eq_caught, tryBlock] at hr
    cases hs : sectionList doc with
    | arr contents =>
      rw [hs] at hr
      rcases sectionsLoop_built numToString contents [] r hr with h | h
      · simp at h
      · exact h
    | undefined => rw [hs] at hr; simp [caught] at hr
    | null => rw [hs] at hr; simp [caught] at hr
    | bool b => rw [hs] at hr; simp [caught] at hr
    | num n => rw [hs] at hr; simp [caught] at hr
    | str s => rw [hs] at hr; simp [caught] at hr
    | obj props => rw [hs] at hr; simp [caught] at hr

/-- C12 (counterexample): between the recognized items `a` and `b` stands a malformed
entry: a `null` item, a `videoRenderer` whose thumbnail list holds `null`, or a section
whose contents is the number 5. Each time the exception ends the walk: only the record
of `a` is returned and the record of `b`, which comes after the malformed entry, is
lost. -/
theorem C12_counterexample_walk_aborted :
    recordOf (fun _ => []) (itemOf (.obj [(utf16 "videoId", .str (utf16 "b"))]))
      = some ⟨.str (utf16 "b"), .str [], .null, .null, .null,
          .str (utf16 "https://www.youtube-nocookie.com/embed/b"),
          .str (utf16 "https://www.youtube.com/watch?v=b")⟩ ∧
    extractVideos (fun _ => []) (documentOf (.arr [sectionOf (.arr [
        itemOf (.obj [(utf16 "videoId", .str (utf16 "a"))]),
        .null,
        itemOf (.obj [(utf16 "videoId", .str (utf16 "b"))])])]))
      = [⟨.str (utf16 "a"), .str [], .null, .null, .null,
          .str (utf16 "https://www.youtube-nocookie.com/embed/a"),
          .str (utf16 "https://www.youtube.com/watch?v=a")⟩] ∧
    extractVideos (fun _ => []) (documentOf (.arr [sectionOf (.arr [
        itemOf (.obj [(utf16 "videoId", .str (utf16 "a"))]),
        itemOf (.obj [(utf16 "thumbnail", .obj [(utf16 "thumbnails", .arr [.null])])]),
        itemOf (.obj [(utf16 "videoId", .str (utf16 "b"))])])]))
      = [⟨.str (utf16 "a"), .str [], .null, .null, .null,
          .str (utf16 "https://www.youtube-nocookie.com/embed/a"),
          .str (utf16 "https://www.youtube.com/watch?v=a")⟩] ∧
    extractVideos (fun _ => []) (documentOf (.arr [
        sectionOf (.arr [itemOf (.obj [(utf16 "videoId", .str (utf16 "a"))])]),
        sectionOf (.num ⟨false, 5, 0⟩),
        sectionOf (.arr [itemOf (.obj [(utf16 "videoId", .str (utf16 "b"))])])]))
      = [⟨.str (utf16 "a"), .str [], .null, .null, .null,
          .str (utf16 "https://www.youtube-nocookie.com/embed/a"),
          .str (utf16 "https://www.youtube.com/watch?v=a")⟩] :=
  ⟨rfl, rfl, rfl, rfl⟩

/-- C12 (amended): when every section's contents is iterable or falsy and no item
throws (an item that is a primitive, an array, or an object whose `videoRenderer` is
missing or falsy is just skipped), `extractVideos` skips exactly the entries without a
truthy `videoRenderer` and returns the records of all recognized items, in order,
including those that come after skipped entries. -/
theorem C12_skipped_entries_keep_walk (numToString : JSNumber → List Nat) (doc : JSValue)
    (sections : List JSValue)
    (hpath : sectionList doc = .arr sections)
    (hquiet : ∀ sec ∈ sections, ∃ items, sectionItems sec = some items ∧
      ∀ it ∈ items, itemStep numToString it ≠ none) :
    extractVideos numToString doc = (allItems sections).filterMap (recordOf numToString) ∧
    (∀ n, itemStep numToString (.num n) = some none) ∧
    (∀ s, itemStep numToString (.str s) = some none) ∧
    (∀ b, itemStep numToString (.bool b) = some none) ∧
    (∀ xs, itemStep numToString (.arr xs) = some none) ∧
    (∀ props, truthy (lookup (utf16 "videoRenderer") props) = false →
      itemStep numToString (.obj props) = some none) ∧
    (∀ sec, truthy (itemsOf sec) = false → sectionItems sec = some []) ∧
    (∀ sec s, itemsOf sec = .str s → sectionItems sec = some []) := by
  refine ⟨?_, fun _ => rfl, fun _ => rfl, fun _ => rfl, fun _ => rfl, ?_, ?_, ?_⟩
  · rw [extractVideos, hpath]
    simp only
    rw [sectionsLoop_quiet numToString sections [] hquiet]
    simp
  · intro props h
    simp only [itemStep, getProp]
    rw [if_neg (by simpa using h)]
  · intro sec h
    rw [sectionItems, jsOr, if_neg (by simpa using h)]
  · intro sec s h
    rw [sectionItems, h]
    unfold jsOr
    by_cases ht : truthy (.str s) = true
    · rw [if_pos ht]
    · rw [if_neg ht]

/-- C12 (witness): a number, a string, a shelf and an item with `videoRenderer: null`
stand between recognized items, and one section has no contents; both videos are
returned. -/
theorem C12_skipped_entries_keep_walk_witness :
    extractVideos (fun _ => []) (documentOf (.arr [
        sectionOf (.arr [
          itemOf (.obj [(utf16 "videoId", .str (utf16 "a"))]),
          .num ⟨false, 7, 0⟩,
          .str (utf16 "x"),
          .obj [(utf16 "shelfRenderer", .obj [])],
          itemOf .null]),
        .obj [],
        sectionOf (.arr [itemOf (.obj [(utf16 "videoId", .str (utf16 "b"))])])]))
      = [⟨.str (utf16 "a"), .str [], .null, .null, .null,
          .str (utf16 "https://www.youtube-nocookie.com/embed/a"),
          .str (utf16 "https://www.youtube.com/watch?v=a")⟩,
         ⟨.str (utf16 "b"), .str [], .null, .null, .null,
          .str (utf16 "https://www.youtube-nocookie.com/embed/b"),
          .str (utf16 "https://www.youtube.com/watch?v=b")⟩] :=
  (C12_skipped_entries_keep_walk (fun _ => [])
    (documentOf (.arr [
        sectionOf (.arr [
          itemOf (.obj [(utf16 "videoId", .str (utf16 "a"))]),
          .num ⟨false, 7, 0⟩,
          .str (utf16 "x"),
          .obj [(utf16 "shelfRenderer", .obj [])],
          itemOf .null]),
        .obj [],
        sectionOf (.arr [itemOf (.obj [(utf16 "videoId", .str (utf16 "b"))])])]))
    [sectionOf (.arr [
          itemOf (.obj [(utf16 "videoId", .str (utf16 "a"))]),
          .num ⟨false, 7, 0⟩,
          .str (utf16 "x"),
          .obj [(utf16 "shelfRenderer", .obj [])],
          itemOf .null]),
        .obj [],
        sectionOf (.arr [itemOf (.obj [(utf16 "videoId", .str (utf16 "b"))])])]
    rfl
    (by
      intro sec hsec
      simp only [List.mem_cons, List.mem_singleton, List.not_mem_nil, or_false] at hsec
      rcases hsec with rfl | rfl | rfl
      · refine ⟨_, rfl, ?_⟩
        intro it hit
        simp only [List.mem_cons, List.mem_singleton, List.not_mem_nil, or_false] at hit
        rcases hit with rfl | rfl | rfl | rfl | rfl <;> exact fun h => Option.noConfusion h
      · exact ⟨[], rfl, fun it hit => absurd hit (List.not_mem_nil it)⟩
      · refine ⟨_, rfl, ?_⟩
        intro it hit
        simp only [List.mem_cons, List.mem_singleton, List.not_mem_nil, or_false] at hit
        subst hit
        exact fun h => Option.noConfusion h)).1.trans rfl

/-- C13: let the sections `pre` be walked without exception, and let the walk fail in the
section `sec` that follows them, either because its contents is not iterable or at the
item `bad` after the items `good` that do not throw. Then `extractVideos` returns exactly
the records of the recognized items of `pre` and of `good`, in traversal order. -/
theorem C13_records_before_failure (numToString : JSNumber → List Nat) (doc : JSValue)
    (pre : List JSValue) (sec : JSValue) (post : List JSValue) (good : List JSValue)
    (hpath : sectionList doc = .arr (pre ++ sec :: post))
    (hpre : ∀ s ∈ pre, ∃ items, sectionItems s = some items ∧
      ∀ it ∈ items, itemStep numToString it ≠ none)
    (hgood : ∀ it ∈ good, itemStep numToString it ≠ none)
    (hfail : (sectionItems sec = none ∧ good = []) ∨
      ∃ bad rest, sectionItems sec = some (good ++ bad :: rest) ∧
        itemStep numToString bad = none) :
    extractVideos numToString doc
      = (allItems pre ++ good).filterMap (recordOf numToString) := by
  rw [extractVideos, hpath]
  simp only
  rw [sectionsLoop_throw numToString pre sec post good [] hpre hgood hfail]
  simp

/-! ## The fields of a record -/

/-- The fields of a record that `buildRecord` yields, read off lines 61-75. -/
theorem buildRecord_some {numToString : JSNumber → List Nat} {vr : JSValue} {r : VideoRecord}
    (h : buildRecord numToString vr = some r) :
    ∃ title thumbnails,
      titleOf numToString vr = some title ∧ thumbnailsOf vr = some thumbnails ∧
      r.videoId = getPropOpt vr (utf16 "videoId") ∧ r.title = title ∧
      r.thumbnail = (if thumbnails.length ≠ 0 then thumbnails.getLastD .undefined else .null) ∧
      r.length = jsOr (getPropOpt (getPropOpt vr (utf16 "lengthText")) (utf16 "simpleText")) .null ∧
      r.channel = jsOr (getPropOpt (getIndex0Opt (getPropOpt (getPropOpt vr (utf16 "ownerText"))
        (utf16 "runs"))) (utf16 "text")) .null ∧
      (truthy r.videoId = true → ∃ id, toStr numToString r.videoId = some id ∧
        r.embed = .str (utf16 "https://www.youtube-nocookie.com/embed/" ++ id) ∧
        r.watch = .str (utf16 "https://www.youtube.com/watch?v=" ++ id)) ∧
      (truthy r.videoId = false → r.embed = .null ∧ r.watch = .null) := by
  rw [buildRecord] at h
  obtain ⟨videoId, hid, h⟩ := Option.bind_eq_some.mp h
  obtain ⟨title, htitle, h⟩ := Option.bind_eq_some.mp h
  obtain ⟨thumbnails, hthumbs, h⟩ := Option.bind_eq_some.mp h
  obtain ⟨lt, hlt, h⟩ := Option.bind_eq_some.mp h
  obtain ⟨ot, hot, h⟩ := Option.bind_eq_some.mp h
  have e1 := getProp_some hid
  have e2 := getProp_some hlt
  have e3 := getProp_some hot
  subst e1 e2 e3
  refine ⟨title, thumbnails, htitle, hthumbs, ?_⟩
  by_cases ht : truthy (getPropOpt vr (utf16 "videoId")) = true
  · rw [if_pos ht] at h
    obtain ⟨id, hidstr, h⟩ := Option.map_eq_some'.mp h
    subst h
    refine ⟨rfl, rfl, rfl, rfl, rfl, fun _ => ⟨id, hidstr, rfl, rfl⟩, ?_⟩
    intro hf
    simp only at hf
    rw [ht] at hf
    exact absurd hf (by simp)
  · rw [if_neg ht] at h
    simp only [Option.some.injEq] at h
    subst h
    refine ⟨rfl, rfl, rfl, rfl, rfl, ?_, fun _ => ⟨rfl, rfl⟩⟩
    intro hf
    exact absurd hf ht

theorem mapM_getProp {k : List Nat} {l ys : List JSValue}
    (h : l.mapM (fun x => getProp x k) = some ys) : ys = l.map fun x => getPropOpt x k := by
  induction l generalizing ys with
  | nil =>
    rw [List.mapM_nil] at h
    cases h
    rfl
  | cons x l ih =>
    rw [List.mapM_cons] at h
    obtain ⟨y, hy, h⟩ := Option.bind_eq_some.mp h
    obtain ⟨ys', hys', h⟩ := Option.bind_eq_some.mp h
    simp only [pure, Option.some.injEq] at h
    subst h
    rw [List.map_cons, ← ih hys', ← getProp_some hy]

theorem joinList_strings (numToString : JSNumber → List Nat) (ts : List (List Nat)) :
    joinList numToString [] (ts.map JSValue.str) = some ts.flatten := by
  induction ts with
  | nil => rfl
  | cons a ts ih =>
    rw [List.map_cons, joinList, ih, List.flatten_cons]
    · cases ts with
      | nil =>
        show some a = some (a ++ [])
        rw [List.append_nil]
      | cons b ts =>
        show some (a ++ [] ++ _) = some (a ++ _)
        rw [List.append_nil]
    · intro hc; cases hc
    · intro hc; cases hc

/-- The title expression of line 62, case by case. -/
theorem titleOf_some {numToString : JSNumber → List Nat} {vr title : JSValue}
    (h : titleOf numToString vr = some title) :
    (∀ runs, getPropOpt (getPropOpt vr (utf16 "title")) (utf16 "runs") = .arr runs →
      ∃ s, joinList numToString [] (runs.map fun run => getPropOpt run (utf16 "text")) = some s ∧
        title = .str s) ∧
    (isArray (getPropOpt (getPropOpt vr (utf16 "title")) (utf16 "runs")) = false →
      title = jsOr (getPropOpt (getPropOpt vr (utf16 "title")) (utf16 "simpleText")) (.str [])) := by
  rw [titleOf] at h
  obtain ⟨t, ht, h⟩ := Option.bind_eq_some.mp h
  have e := getProp_some ht
  subst e
  cases hr : getPropOpt (getPropOpt vr (utf16 "title")) (utf16 "runs") with
  | arr runs =>
    rw [hr] at h
    simp only at h
    refine ⟨?_, fun hf => absurd hf (by simp [isArray])⟩
    intro runs' hruns'
    injection hruns' with hruns'
    subst hruns'
    obtain ⟨texts, htexts, h⟩ := Option.bind_eq_some.mp h
    obtain ⟨s, hs, hstr⟩ := Option.map_eq_some'.mp h
    rw [mapM_getProp htexts] at hs
    exact ⟨s, hs, hstr.symm⟩
  | undefined =>
    rw [hr] at h; simp only [Option.some.injEq] at h
    exact ⟨fun _ hc => (by cases hc), fun _ => h.symm⟩
  | null =>
    rw [hr] at h; simp only [Option.some.injEq] at h
    exact ⟨fun _ hc => (by cases hc), fun _ => h.symm⟩
  | bool b =>
    rw [hr] at h; simp only [Option.some.injEq] at h
    exact ⟨fun _ hc => (by cases hc), fun _ => h.symm⟩
  | num n =>
    rw [hr] at h; simp only [Option.some.injEq] at h
    exact ⟨fun _ hc => (by cases hc), fun _ => h.symm⟩
  | str s =>
    rw [hr] at h; simp only [Option.some.injEq] at h
    exact ⟨fun _ hc => (by cases hc), fun _ => h.symm⟩
  | obj props =>
    rw [hr] at h; simp only [Option.some.injEq] at h
    exact ⟨fun _ hc => (by cases hc), fun _ => h.symm⟩

/-- The thumbnail urls of line 63, when the candidate list is an array or absent. -/
theorem thumbnailsOf_some {vr : JSValue} {thumbnails : List JSValue}
    (h : thumbnailsOf vr = some thumbnails) :
    (∀ ts, getPropOpt (getPropOpt vr (utf16 "thumbnail")) (utf16 "thumbnails") = .arr ts →
      thumbnails = ts.map fun t => getPropOpt t (utf16 "url")) ∧
    (truthy (getPropOpt (getPropOpt vr (utf16 "thumbnail")) (utf16 "thumbnails")) = false →
      thumbnails = []) := by
  rw [thumbnailsOf] at h
  obtain ⟨t, ht, h⟩ := Option.bind_eq_some.mp h
  have e := getProp_some ht
  subst e
  constructor
  · intro ts hts
    rw [hts] at h
    simp only [jsOr, truthy, if_true] at h
    exact mapM_getProp h
  · intro hf
    rw [jsOr, if_neg (by simpa using hf)] at h
    simp only at h
    rw [List.mapM_nil] at h
    cases h
    rfl

/-! ## Claims about the fields of a record -/

/-- C13 (witness): the second section holds a video, then `null`, then another video;
the records of the first section and of the video before `null` are returned. -/
theorem C13_records_before_failure_witness :
    extractVideos (fun _ => []) (documentOf (.arr [
        sectionOf (.arr [itemOf (.obj [(utf16 "videoId", .str (utf16 "a"))])]),
        sectionOf (.arr [itemOf (.obj [(utf16 "videoId", .str (utf16 "b"))]), .null,
          itemOf (.obj [(utf16 "videoId", .str (utf16 "c"))])]),
        sectionOf (.arr [itemOf (.obj [(utf16 "videoId", .str (utf16 "d"))])])]))
      = [⟨.str (utf16 "a"), .str [], .null, .null, .null,
          .str (utf16 "https://www.youtube-nocookie.com/embed/a"),
          .str (utf16 "https://www.youtube.com/watch?v=a")⟩,
         ⟨.str (utf16 "b"), .str [], .null, .null, .null,
          .str (utf16 "https://www.youtube-nocookie.com/embed/b"),
          .str (utf16 "https://www.youtube.com/watch?v=b")⟩] :=
  (C13_records_before_failure (fun _ => [])
    (documentOf (.arr [
        sectionOf (.arr [itemOf (.obj [(utf16 "videoId", .str (utf16 "a"))])]),
        sectionOf (.arr [itemOf (.obj [(utf16 "videoId", .str (utf16 "b"))]), .null,
          itemOf (.obj [(utf16 "videoId", .str (utf16 "c"))])]),
        sectionOf (.arr [itemOf (.obj [(utf16 "videoId", .str (utf16 "d"))])])]))
    [sectionOf (.arr [itemOf (.obj [(utf16 "videoId", .str (utf16 "a"))])])]
    (sectionOf (.arr [itemOf (.obj [(utf16 "videoId", .str (utf16 "b"))]), .null,
          itemOf (.obj [(utf16 "videoId", .str (utf16 "c"))])]))
    [sectionOf (.arr [itemOf (.obj [(utf16 "videoId", .str (utf16 "d"))])])]
    [itemOf (.obj [(utf16 "videoId", .str (utf16 "b"))])]
    rfl
    (by
      intro s hs
      rw [List.mem_singleton] at hs
      subst hs
      refine ⟨_, rfl, ?_⟩
      intro it hit
      rw [List.mem_singleton] at hit
      subst hit
      exact fun h => Option.noConfusion h)
    (by
      intro it hit
      rw [List.mem_singleton] at hit
      subst hit
      exact fun h => Option.noConfusion h)
    (Or.inr ⟨.null, [itemOf (.obj [(utf16 "videoId", .str (utf16 "c"))])], rfl, rfl⟩)).trans rfl

/-- C14: a record built from a `videoRenderer` that is not an object with a `videoId`
property has `videoId` undefined and both `embed` and `watch` equal to `null`. -/
theorem C14_no_id_null_urls (numToString : JSNumber → List Nat) (vr : JSValue)
    (r : VideoRecord) (hbuild : buildRecord numToString vr = some r)
    (hno : ∀ props, vr = .obj props → hasOwn (utf16 "videoId") props = false) :
    r.videoId = .undefined ∧ r.embed = .null ∧ r.watch = .null := by
  obtain ⟨title, thumbnails, -, -, hid, -, -, -, -, -, hnull⟩ := buildRecord_some hbuild
  have hundef : r.videoId = .undefined := by
    rw [hid]
    cases vr with
    | obj props => exact lookup_of_not_hasOwn _ props (hno props rfl)
    | undefined => rfl
    | null => rfl
    | bool b => rfl
    | num n => rfl
    | str s => rfl
    | arr xs => rfl
  exact ⟨hundef, hnull (by rw [hundef]; rfl)⟩

/-- C14 (witness): a `videoRenderer` with a title only. -/
theorem C14_no_id_null_urls_witness :
    buildRecord (fun _ => [])
        (.obj [(utf16 "title", .obj [(utf16 "simpleText", .str (utf16 "T"))])])
      = some ⟨.undefined, .str (utf16 "T"), .null, .null, .null, .null, .null⟩ ∧
    (VideoRecord.mk .undefined (.str (utf16 "T")) .null .null .null .null .null).embed = .null :=
  ⟨rfl, (C14_no_id_null_urls (fun _ => [])
    (.obj [(utf16 "title", .obj [(utf16 "simpleText", .str (utf16 "T"))])])
    ⟨.undefined, .str (utf16 "T"), .null, .null, .null, .null, .null⟩ rfl
    (by intro props h; cases h; rfl)).2.1⟩

/-- C15 (counterexample): the `videoId` field holds the empty string; the test
`videoId ? ... : null` of lines 73-74 takes it for absent and both URLs are `null`
instead of the bare templates. -/
theorem C15_counterexample_empty_id :
    buildRecord (fun _ => []) (.obj [(utf16 "videoId", .str [])])
      = some ⟨.str [], .str [], .null, .null, .null, .null, .null⟩ ∧
    extractVideos (fun _ => [])
        (documentOf (.arr [sectionOf (.arr [itemOf (.obj [(utf16 "videoId", .str [])])])]))
      = [⟨.str [], .str [], .null, .null, .null, .null, .null⟩] :=
  ⟨rfl, rfl⟩

/-- C15 (amended): a record built from a `videoRenderer` whose `videoId` is the string
`s` has `embed` and `watch` equal to the two templates followed by `s` when `s` is not
empty, and both equal to `null` when `s` is empty. -/
theorem C15_urls_from_id (numToString : JSNumber → List Nat) (vr : JSValue)
    (r : VideoRecord) (s : List Nat) (hbuild : buildRecord numToString vr = some r)
    (hid : getPropOpt vr (utf16 "videoId") = .str s) :
    (s ≠ [] →
      r.embed = .str (utf16 "https://www.youtube-nocookie.com/embed/" ++ s) ∧
      r.watch = .str (utf16 "https://www.youtube.com/watch?v=" ++ s)) ∧
    (s = [] → r.embed = .null ∧ r.watch = .null) := by
  obtain ⟨title, thumbnails, -, -, hvid, -, -, -, -, hurl, hnull⟩ := buildRecord_some hbuild
  rw [hid] at hvid
  rw [hvid] at hurl hnull
  constructor
  · intro hs
    obtain ⟨id, hstr, he, hw⟩ := hurl (by cases s with
      | nil => exact absurd rfl hs
      | cons c cs => rfl)
    simp only [toStr, Option.some.injEq] at hstr
    subst hstr
    exact ⟨he, hw⟩
  · intro hs
    subst hs
    exact hnull rfl

/-- C15 (witness): the id `abc123`. -/
theorem C15_urls_from_id_witness :
    (VideoRecord.mk (.str (utf16 "abc123")) (.str []) .null .null .null
        (.str (utf16 "https://www.youtube-nocookie.com/embed/abc123"))
        (.str (utf16 "https://www.youtube.com/watch?v=abc123"))).embed
      = .str (utf16 "https://www.youtube-nocookie.com/embed/" ++ utf16 "abc123") :=
  ((C15_urls_from_id (fun _ => []) (.obj [(utf16 "videoId", .str (utf16 "abc123"))])
    ⟨.str (utf16 "abc123"), .str [], .null, .null, .null,
      .str (utf16 "https://www.youtube-nocookie.com/embed/abc123"),
      .str (utf16 "https://www.youtube.com/watch?v=abc123")⟩ (utf16 "abc123") rfl rfl).1
    (by decide)).1

/-- C16 (counterexample): `title.runs` is the empty list and `title.simpleText` is `X`;
`Array.isArray` accepts the empty list, the join of no run is the empty string, and the
title is empty instead of `X`. -/
theorem C16_counterexample_empty_runs :
    buildRecord (fun _ => [])
        (.obj [(utf16 "title", .obj [(utf16 "runs", .arr []),
          (utf16 "simpleText", .str (utf16 "X"))])])
      = some ⟨.undefined, .str [], .null, .null, .null, .null, .null⟩ ∧
    extractVideos (fun _ => [])
        (documentOf (.arr [sectionOf (.arr [itemOf
          (.obj [(utf16 "title", .obj [(utf16 "runs", .arr []),
            (utf16 "simpleText", .str (utf16 "X"))])])])]))
      = [⟨.undefined, .str [], .null, .null, .null, .null, .null⟩] :=
  ⟨rfl, rfl⟩

/-- C16 (amended): in a record built from a `videoRenderer`, the title is the
concatenation in order of the run texts (taken here to be strings) whenever `title.runs`
is an array, empty or not; otherwise it is `title.simpleText` when that is truthy, and
the empty string when it is not. -/
theorem C16_title_rules (numToString : JSNumber → List Nat) (vr : JSValue) (r : VideoRecord)
    (hbuild : buildRecord numToString vr = some r) :
    (∀ (runs : List JSValue) (ts : List (List Nat)),
      getPropOpt (getPropOpt vr (utf16 "title")) (utf16 "runs") = .arr runs →
      (runs.map fun run => getPropOpt run (utf16 "text")) = ts.map JSValue.str →
      r.title = .str ts.flatten) ∧
    (isArray (getPropOpt (getPropOpt vr (utf16 "title")) (utf16 "runs")) = false →
      truthy (getPropOpt (getPropOpt vr (utf16 "title")) (utf16 "simpleText")) = true →
      r.title = getPropOpt (getPropOpt vr (utf16 "title")) (utf16 "simpleText")) ∧
    (isArray (getPropOpt (getPropOpt vr (utf16 "title")) (utf16 "runs")) = false →
      truthy (getPropOpt (getPropOpt vr (utf16 "title")) (utf16 "simpleText")) = false →
      r.title = .str []) := by
  obtain ⟨title, thumbnails, htitle, -, -, ht, -⟩ := buildRecord_some hbuild
  obtain ⟨hruns, hsimple⟩ := titleOf_some htitle
  refine ⟨?_, ?_, ?_⟩
  · intro runs ts hr htexts
    obtain ⟨s, hs, hstr⟩ := hruns runs hr
    rw [htexts, joinList_strings] at hs
    simp only [Option.some.injEq] at hs
    rw [ht, hstr, hs]
  · intro harr htruthy
    rw [ht, hsimple harr, jsOr, if_pos htruthy]
  · intro harr hfalsy
    rw [ht, hsimple harr, jsOr, if_neg (by simpa using hfalsy)]

/-- C16 (witness): two runs `Te` and `st`; and a title with `simpleText` only. -/
theorem C16_title_rules_witness :
    (VideoRecord.mk .undefined (.str (utf16 "Test")) .null .null .null .null .null).title
      = .str [utf16 "Te", utf16 "st"].flatten ∧
    (VideoRecord.mk .undefined (.str (utf16 "Plain")) .null .null .null .null .null).title
      = getPropOpt (getPropOpt (.obj [(utf16 "title",
          .obj [(utf16 "simpleText", .str (utf16 "Plain"))])]) (utf16 "title"))
          (utf16 "simpleText") :=
  ⟨(C16_title_rules (fun _ => [])
      (.obj [(utf16 "title", .obj [(utf16 "runs",
        .arr [.obj [(utf16 "text", .str (utf16 "Te"))],
          .obj [(utf16 "text", .str (utf16 "st"))]])])])
      ⟨.undefined, .str (utf16 "Test"), .null, .null, .null, .null, .null⟩ rfl).1
      [.obj [(utf16 "text", .str (utf16 "Te"))], .obj [(utf16 "text", .str (utf16 "st"))]]
      [utf16 "Te", utf16 "st"] rfl rfl,
    (C16_title_rules (fun _ => [])
      (.obj [(utf16 "title", .obj [(utf16 "simpleText", .str (utf16 "Plain"))])])
      ⟨.undefined, .str (utf16 "Plain"), .null, .null, .null, .null, .null⟩ rfl).2.1 rfl rfl⟩

theorem getLastD_map_concat (f : JSValue → JSValue) (ts : List JSValue) (last d : JSValue) :
    ((ts ++ [last]).map f).getLastD d = f last := by
  rw [List.map_append, List.map_singleton]
  induction ts with
  | nil => rfl
  | cons t ts ih =>
    rw [List.map_cons, List.cons_append]
    cases hts : ts.map f ++ [f last] with
    | nil => simp at hts
    | cons a l =>
      rw [hts] at ih
      simpa [List.getLastD] using ih

/-- C17: in a record built from a `videoRenderer`, the thumbnail is the `url` of the last
element of `thumbnail.thumbnails` when that list is not empty, whatever its length, and
`null` when the list is empty or absent. -/
theorem C17_last_thumbnail (numToString : JSNumber → List Nat) (vr : JSValue)
    (r : VideoRecord) (hbuild : buildRecord numToString vr = some r) :
    (∀ ts last,
      getPropOpt (getPropOpt vr (utf16 "thumbnail")) (utf16 "thumbnails") = .arr (ts ++ [last]) →
      r.thumbnail = getPropOpt last (utf16 "url")) ∧
    (getPropOpt (getPropOpt vr (utf16 "thumbnail")) (utf16 "thumbnails") = .arr [] →
      r.thumbnail = .null) ∧
    (getPropOpt (getPropOpt vr (utf16 "thumbnail")) (utf16 "thumbnails") = .undefined →
      r.thumbnail = .null) := by
  obtain ⟨title, thumbnails, -, hthumbs, -, -, hth, -⟩ := buildRecord_some hbuild
  obtain ⟨harr, hfalsy⟩ := thumbnailsOf_some hthumbs
  refine ⟨?_, ?_, ?_⟩
  · intro ts last h
    have e := harr _ h
    rw [hth, e, if_pos (by simp), getLastD_map_concat]
  · intro h
    have e := harr _ h
    rw [hth, e]
    rfl
  · intro h
    have e := hfalsy (by rw [h]; rfl)
    rw [hth, e]
    rfl

/-- C17 (witness): three candidates, none, and no `thumbnail` at all. -/
theorem C17_last_thumbnail_witness :
    (VideoRecord.mk .undefined (.str []) (.str (utf16 "http://x/3.jpg")) .null .null .null
        .null).thumbnail
      = getPropOpt (.obj [(utf16 "url", .str (utf16 "http://x/3.jpg"))]) (utf16 "url") ∧
    (VideoRecord.mk .undefined (.str []) .null .null .null .null .null).thumbnail = .null :=
  ⟨(C17_last_thumbnail (fun _ => [])
      (.obj [(utf16 "thumbnail", .obj [(utf16 "thumbnails", .arr [
        .obj [(utf16 "url", .str (utf16 "http://x/1.jpg"))],
        .obj [(utf16 "url", .str (utf16 "http://x/2.jpg"))],
        .obj [(utf16 "url", .str (utf16 "http://x/3.jpg"))]])])])
      ⟨.undefined, .str [], .str (utf16 "http://x/3.jpg"), .null, .null, .null, .null⟩ rfl).1
      [.obj [(utf16 "url", .str (utf16 "http://x/1.jpg"))],
        .obj [(utf16 "url", .str (utf16 "http://x/2.jpg"))]]
      (.obj [(utf16 "url", .str (utf16 "http://x/3.jpg"))]) rfl,
    (C17_last_thumbnail (fun _ => []) (.obj [])
      ⟨.undefined, .str [], .null, .null, .null, .null, .null⟩ rfl).2.2 rfl⟩

/-! ## Marker priority -/

/-- The search finds the first position at which the pattern stands. -/
theorem indexOfAux_first {pat : List Nat} (s : List Nat) (i n : Nat)
    (hocc : pat <+: s.drop n) (hfirst : ∀ k < n, ¬ pat <+: s.drop k) :
    indexOfAux pat s i = some (i + n) := by
  induction n generalizing s i with
  | zero => exact indexOfAux_at_head i hocc
  | succ n ih =>
    have h0 : ¬ pat <+: s := hfirst 0 (Nat.succ_pos n)
    cases s with
    | nil =>
      rw [List.drop_nil] at hocc
      exact absurd hocc h0
    | cons c cs =>
      rw [indexOfAux, if_neg (fun hp => h0 (List.isPrefixOf_iff_prefix.mp hp))]
      rw [List.drop_succ_cons] at hocc
      rw [ih cs (i + 1) hocc (fun k hk => by
        have := hfirst (k + 1) (Nat.succ_lt_succ hk)
        rwa [List.drop_succ_cons] at this)]
      congr 1
      omega

/-- Nothing stands before the position that the search returns. -/
theorem indexOfAux_min {pat s : List Nat} {i j : Nat} (h : indexOfAux pat s i = some j) :
    ∀ k, k < j - i → ¬ pat <+: s.drop k := by
  induction s generalizing i with
  | nil =>
    intro k hk
    rw [indexOfAux] at h
    by_cases hp : pat.isEmpty = true
    · rw [if_pos hp] at h
      simp only [Option.some.injEq] at h
      omega
    · rw [if_neg hp] at h; exact absurd h (by simp)
  | cons c cs ih =>
    intro k hk
    rw [indexOfAux] at h
    by_cases hp : pat.isPrefixOf (c :: cs) = true
    · rw [if_pos hp] at h
      simp only [Option.some.injEq] at h
      omega
    · rw [if_neg hp] at h
      cases k with
      | zero => exact fun hc => hp (List.isPrefixOf_iff_prefix.mpr hc)
      | succ k =>
        rw [List.drop_succ_cons]
        exact ih h k (by omega)

theorem indexOfAux_of_occurrence {pat : List Nat} (s : List Nat) (i : Nat) (h : pat <:+: s) :
    (indexOfAux pat s i).isSome = true := by
  induction s generalizing i with
  | nil =>
    have : pat = [] := List.infix_nil.mp h
    subst this
    rfl
  | cons c cs ih =>
    rw [indexOfAux]
    by_cases hp : pat.isPrefixOf (c :: cs) = true
    · rw [if_pos hp]; rfl
    · rw [if_neg hp]
      rcases List.infix_cons_iff.mp h with h1 | h2
      · exact absurd (List.isPrefixOf_iff_prefix.mpr h1) hp
      · exact ih _ h2

theorem findStart_first (html m : List Nat) (idx : Nat) (ms : List (List Nat)) (hm : m ∈ ms)
    (hprio : ∀ m' ∈ ms.takeWhile (fun m' => decide (m' ≠ m)), ¬ m' <:+: html)
    (hidx : indexOf html m 0 = some idx) :
    findStart html ms = indexOf html [123] (idx + m.length) := by
  induction ms with
  | nil => simp at hm
  | cons m0 ms ih =>
    rw [findStart]
    by_cases h0 : m0 = m
    · subst h0
      rw [hidx]
    · have hmem : m0 ∈ (m0 :: ms).takeWhile (fun m' => decide (m' ≠ m)) := by
        simp [List.takeWhile_cons, h0]
      rw [indexOf_none _ (hprio m0 hmem)]
      apply ih
      · rcases List.mem_cons.mp hm with rfl | hm
        · exact absurd rfl h0
        · exact hm
      · intro m' hm'
        apply hprio
        simp only [List.takeWhile_cons, h0, ne_eq, not_false_eq_true, decide_True]
        exact List.mem_cons_of_mem _ hm'

/-- C19: let `m` be the first marker of the list that occurs anywhere in `html`, and
`idx` the index of its first occurrence. Then `start` is `html.indexOf("{", idx +
m.length)`; it is `some start` exactly when `start` is the first index at or after the
end of that occurrence that holds an opening brace. So when the text after the
occurrence is `a ++ "{" :: rest` with no brace in `a`, the start is found right after
`a`, the scan begins there and its span decides the result; a start is found whenever a
brace follows; and if no opening brace follows, no start is found and the result is
`null`, whatever stands elsewhere in the text. -/
theorem C19_marker_priority (html m : List Nat) (idx : Nat)
    (hm : m ∈ markers)
    (hprio : ∀ m' ∈ markers.takeWhile (fun m' => decide (m' ≠ m)), ¬ m' <:+: html)
    (hocc : m <+: html.drop idx) (hfirst : ∀ k < idx, ¬ m <+: html.drop k) :
    findStart html markers = indexOf html [123] (idx + m.length) ∧
    (∀ start, findStart html markers = some start ↔
      idx + m.length ≤ start ∧ (∃ rest, html.drop start = 123 :: rest) ∧
      ∀ k, idx + m.length ≤ k → k < start → ¬ [123] <+: html.drop k) ∧
    (∀ a rest, html.drop (idx + m.length) = a ++ 123 :: rest → 123 ∉ a →
      findStart html markers = some (idx + m.length + a.length) ∧
      isolatedSpan html = scanSpan html (idx + m.length + a.length) ∧
      extractYtInitialData html =
        match scanSpan html (idx + m.length + a.length) with
        | none => .null
        | some t => (JSON.parse t).getD .null) ∧
    (123 ∈ html.drop (idx + m.length) → (findStart html markers).isSome = true) ∧
    (123 ∉ html.drop (idx + m.length) →
      findStart html markers = none ∧ extractYtInitialData html = .null) := by
  have hidx : indexOf html m 0 = some idx := by
    rw [indexOf]
    simp only [Nat.zero_min, List.drop_zero]
    have := indexOfAux_first html 0 idx hocc hfirst
    rwa [Nat.zero_add] at this
  have hstart := findStart_first html m idx markers hm hprio hidx
  have hmpos : 0 < m.length := by
    simp only [markers, List.mem_cons, List.mem_singleton, List.not_mem_nil, or_false] at hm
    rcases hm with rfl | rfl | rfl <;> decide
  have hlen : idx + m.length ≤ html.length := by
    obtain ⟨t, ht⟩ := hocc
    have := congrArg List.length ht
    simp only [List.length_append, List.length_drop] at this
    omega
  have hmin : min (idx + m.length) html.length = idx + m.length := Nat.min_eq_left hlen
  have hiff : ∀ start, findStart html markers = some start ↔
      idx + m.length ≤ start ∧ (∃ rest, html.drop start = 123 :: rest) ∧
      ∀ k, idx + m.length ≤ k → k < start → ¬ [123] <+: html.drop k := by
    intro start
    constructor
    · intro hs
      rw [hstart] at hs
      have hbrace := indexOf_brace hs
      rw [indexOf, hmin] at hs
      obtain ⟨h1, -⟩ := indexOfAux_some hs
      refine ⟨h1, hbrace, ?_⟩
      intro k hk1 hk2 hc
      have := indexOfAux_min hs (k - (idx + m.length)) (by omega)
      rw [List.drop_drop] at this
      have e : idx + m.length + (k - (idx + m.length)) = k := by omega
      rw [e] at this
      exact this hc
    · rintro ⟨h1, ⟨rest, hrest⟩, hno⟩
      rw [hstart, indexOf, hmin]
      have e : idx + m.length + (start - (idx + m.length)) = start := by omega
      have := @indexOfAux_first [123] (html.drop (idx + m.length)) (idx + m.length)
        (start - (idx + m.length))
        (by rw [List.drop_drop, e, hrest]; exact ⟨rest, rfl⟩)
        (fun k hk => by
          rw [List.drop_drop]
          exact hno _ (by omega) (by omega))
      rwa [e] at this
  have hfound : ∀ a rest, html.drop (idx + m.length) = a ++ 123 :: rest → 123 ∉ a →
      findStart html markers = some (idx + m.length + a.length) := by
    intro a rest hsplit hna
    refine (hiff _).mpr ⟨Nat.le_add_right _ _, ⟨rest, ?_⟩, ?_⟩
    · rw [← List.drop_drop, hsplit, List.drop_left]
    · rintro k hk1 hk2 ⟨t, ht⟩
      have e : idx + m.length + (k - (idx + m.length)) = k := by omega
      rw [← e, ← List.drop_drop, hsplit, List.drop_append_of_le_length (by omega)] at ht
      have hk : k - (idx + m.length) < a.length := by omega
      have hd : a.drop (k - (idx + m.length))
          = a.get ⟨k - (idx + m.length), hk⟩ :: a.drop (k - (idx + m.length) + 1) :=
        List.drop_eq_getElem_cons hk
      rw [hd] at ht
      simp only [List.singleton_append, List.cons_append, List.cons.injEq] at ht
      apply hna
      rw [ht.1]
      exact List.get_mem _ _ _
  refine ⟨hstart, hiff, ?_, ?_, ?_⟩
  · intro a rest hsplit hna
    have hf := hfound a rest hsplit hna
    refine ⟨hf, ?_, ?_⟩
    · rw [isolatedSpan, hf]
    · have hx := extract_eq html
      rw [isolatedSpan, hf] at hx
      exact hx
  · intro hmem
    rw [hstart, indexOf, hmin]
    obtain ⟨a, rest, hsplit⟩ := List.append_of_mem hmem
    exact indexOfAux_of_occurrence _ _ ⟨a, rest, by rw [hsplit]; simp⟩
  · intro hno
    have hnone : indexOf html [123] (idx + m.length) = none := by
      rw [indexOf, hmin]
      apply indexOfAux_none
      rintro ⟨a, b, hab⟩
      apply hno
      rw [← hab]
      simp
    refine ⟨by rw [hstart, hnone], ?_⟩
    rw [extractYtInitialData, hstart, hnone]

/-- C19 (witness): in both texts `window.ytInitialData =` with a valid object comes
first and `var ytInitialData =` later, at index 32. In the first text no brace follows
the later marker and the result is `null`; in the second the start is the brace at index
52 after it, and the result is the object that stands there, not the earlier one. -/
theorem C19_marker_priority_witness :
    extractYtInitialData
      (utf16 "window.ytInitialData = \x7b\"a\":1\x7d; var ytInitialData = null;") = .null ∧
    findStart
      (utf16 "window.ytInitialData = \x7b\"a\":1\x7d; var ytInitialData = \x7b\"b\":\"c\"\x7d;")
      markers = some 52 ∧
    extractYtInitialData
      (utf16 "window.ytInitialData = \x7b\"a\":1\x7d; var ytInitialData = \x7b\"b\":\"c\"\x7d;")
      = .obj [(utf16 "b", .str (utf16 "c"))] :=
  ⟨((C19_marker_priority
      (utf16 "window.ytInitialData = \x7b\"a\":1\x7d; var ytInitialData = null;")
      (utf16 "var ytInitialData =") 32 (by decide) (by decide) (by decide)
      (by
        intro k hk
        interval_cases k <;> decide)).2.2.2.2 (by decide)).2,
    ((C19_marker_priority
      (utf16 "window.ytInitialData = \x7b\"a\":1\x7d; var ytInitialData = \x7b\"b\":\"c\"\x7d;")
      (utf16 "var ytInitialData =") 32 (by decide) (by decide) (by decide)
      (by
        intro k hk
        interval_cases k <;> decide)).2.2.1 [32] (utf16 "\"b\":\"c\"\x7d;") rfl
        (by decide)).1,
    (((C19_marker_priority
      (utf16 "window.ytInitialData = \x7b\"a\":1\x7d; var ytInitialData = \x7b\"b\":\"c\"\x7d;")
      (utf16 "var ytInitialData =") 32 (by decide) (by decide) (by decide)
      (by
        intro k hk
        interval_cases k <;> decide)).2.2.1 [32] (utf16 "\"b\":\"c\"\x7d;") rfl
        (by decide)).2.2).trans rfl⟩

/-! ## The handler from the extracted records on -/

theorem includes_of_occurrence {text b : List Nat} (h : b <:+: text) : includes text b = true := by
  rw [includes, indexOf]
  simp only [Nat.zero_min, List.drop_zero]
  exact indexOfAux_of_occurrence text 0 h

theorem filterVideos_eq (numToString : JSNumber → List Nat)
    (toLowerCase : List Nat → List Nat) (videos : List VideoRecord)
    (h : ∀ v ∈ videos, (searchText numToString v).isSome = true) :
    filterVideos numToString toLowerCase videos = some (videos.filter fun v =>
      decide (passesFilter numToString toLowerCase v = some true)) := by
  induction videos with
  | nil => rfl
  | cons v vs ih =>
    obtain ⟨text, htext⟩ := Option.isSome_iff_exists.mp (h v (List.mem_cons_self _ _))
    rw [filterVideos, ih (fun x hx => h x (List.mem_cons_of_mem _ hx))]
    have hp : passesFilter numToString toLowerCase v
        = some (!blacklist.any fun b => includes (toLowerCase text) b) := by
      rw [passesFilter, htext]; rfl
    rw [hp]
    simp only [Option.map_some']
    cases hk : (!blacklist.any fun b => includes (toLowerCase text) b)
    · rw [List.filter_cons_of_neg (by rw [hp, hk]; simp)]
      simp
    · rw [List.filter_cons_of_pos (by rw [hp, hk]; simp)]
      simp

theorem occurrence_of_includes {text b : List Nat} (h : includes text b = true) :
    b <:+: text := by
  rw [includes, indexOf] at h
  simp only [Nat.zero_min, List.drop_zero] at h
  obtain ⟨j, hj⟩ := Option.isSome_iff_exists.mp h
  obtain ⟨-, hp⟩ := indexOfAux_some hj
  exact hp.isInfix.trans (List.drop_suffix _ _).isInfix

/-- The filter callback returns `true` exactly for a record whose text can be built and,
lower-cased, contains no word of the blacklist as a contiguous part. -/
theorem passesFilter_true_iff (numToString : JSNumber → List Nat)
    (toLowerCase : List Nat → List Nat) (v : VideoRecord) :
    passesFilter numToString toLowerCase v = some true ↔
      ∃ text, searchText numToString v = some text ∧
        ∀ b ∈ blacklist, ¬ b <:+: toLowerCase text := by
  rw [passesFilter]
  cases htxt : searchText numToString v with
  | none => simp
  | some text =>
    simp only [Option.map_some', Option.some.injEq, Bool.not_eq_true', List.any_eq_false,
      exists_eq_left']
    constructor
    · intro h b hb hin
      exact h b hb (includes_of_occurrence hin)
    · intro h b hb hinc
      exact h b hb (occurrence_of_includes hinc)

/-! ## Claims about the handler -/

/-- C18 (counterexample): `title.simpleText` is an object with an own `toString`
property. `extractVideos` returns a record with that object as title; in the filter
callback `v.title + " "` throws a TypeError, and the handler answers 500 instead of a
result list. -/
theorem C18_counterexample_unconvertible_title :
    extractVideos (fun _ => [])
        (documentOf (.arr [sectionOf (.arr [itemOf (.obj [(utf16 "title",
          .obj [(utf16 "simpleText", .obj [(utf16 "toString", .str (utf16 "x"))])])])])]))
      = [⟨.undefined, .obj [(utf16 "toString", .str (utf16 "x"))], .null, .null, .null,
          .null, .null⟩] ∧
    respond (fun _ => []) (fun text => text) true (.int 12)
        [⟨.undefined, .obj [(utf16 "toString", .str (utf16 "x"))], .null, .null, .null,
          .null, .null⟩]
      = none :=
  ⟨rfl, rfl⟩

/-- C18 (amended): for records whose title and channel can all be converted to strings,
any lower-casing function and any ceiling `max ≥ 0` (so for 0 ≤ max ≤ 50), the handler
with the safe flag set returns the first `max` records, in order, of the sub-list of
those records of `videos` whose lower-cased text contains no blacklisted word as a
contiguous part, and `count` is the length of `results`. So no returned record contains
a blacklisted word, and every record of `videos` without one is in the sub-list that is
truncated. The blacklist is the seven words of line 109, and the text of a record with
a string title `t` is `t`, a space, and the channel if that is a string, nothing if it
is `null`. -/
theorem C18_filter_then_truncate (numToString : JSNumber → List Nat)
    (toLowerCase : List Nat → List Nat) (videos : List VideoRecord) (max : Nat)
    (htext : ∀ v ∈ videos, (searchText numToString v).isSome = true) :
    respond numToString toLowerCase true (.int max) videos
      = some ⟨((videos.filter fun v => (searchText numToString v).all fun text =>
            decide (∀ b ∈ blacklist, ¬ b <:+: toLowerCase text)).take max).length,
          (videos.filter fun v => (searchText numToString v).all fun text =>
            decide (∀ b ∈ blacklist, ¬ b <:+: toLowerCase text)).take max⟩ ∧
    (∀ v ∈ (videos.filter fun v => (searchText numToString v).all fun text =>
        decide (∀ b ∈ blacklist, ¬ b <:+: toLowerCase text)).take max,
      ∀ text, searchText numToString v = some text →
        ∀ b ∈ blacklist, ¬ b <:+: toLowerCase text) ∧
    (∀ v ∈ videos, ∀ text, searchText numToString v = some text →
      (∀ b ∈ blacklist, ¬ b <:+: toLowerCase text) →
      v ∈ videos.filter fun v => (searchText numToString v).all fun text =>
        decide (∀ b ∈ blacklist, ¬ b <:+: toLowerCase text)) ∧
    blacklist = [utf16 "porn", utf16 "nude", utf16 "nsfw", utf16 "sex", utf16 "xxx",
      utf16 "adult", utf16 "erotic"] ∧
    (∀ (v : VideoRecord) (t : List Nat), v.title = .str t →
      (∀ c, v.channel = .str c → searchText numToString v = some (t ++ [32] ++ c)) ∧
      (v.channel = .null → searchText numToString v = some (t ++ [32]))) := by
  have hcongr : (videos.filter fun v =>
        decide (passesFilter numToString toLowerCase v = some true))
      = videos.filter fun v => (searchText numToString v).all fun text =>
          decide (∀ b ∈ blacklist, ¬ b <:+: toLowerCase text) := by
    apply List.filter_congr
    intro v hv
    obtain ⟨text, htxt⟩ := Option.isSome_iff_exists.mp (htext v hv)
    have := passesFilter_true_iff numToString toLowerCase v
    rw [htxt] at this ⊢
    simp only [Option.some.injEq, exists_eq_left'] at this
    simp only [Option.all_some]
    exact decide_eq_decide.mpr this
  refine ⟨?_, ?_, ?_, rfl, ?_⟩
  · rw [respond, if_pos rfl, filterVideos_eq numToString toLowerCase videos htext, hcongr]
    simp only [Option.map_some', sliceTo]
    rw [if_neg (by omega)]
    simp
  · intro v hv text htxt
    have hv' := (List.mem_filter.mp (List.mem_of_mem_take hv)).2
    rw [htxt] at hv'
    simpa using hv'
  · intro v hv text htxt hclean
    rw [List.mem_filter, htxt]
    exact ⟨hv, by simpa using hclean⟩
  · intro v t ht
    constructor
    · intro c hc
      rw [searchText, ht, hc]
      cases c with
      | nil => rfl
      | cons x xs => rfl
    · intro hc
      rw [searchText, ht, hc]
      simp [jsOr, truthy, toStr]

/-- C18 (witness): five records, the second with `xxx` in its title and the third with
`nsfw` in its channel, ceiling 2: the first and the fourth are returned. -/
theorem C18_filter_then_truncate_witness :
    respond (fun _ => []) (fun text => text) true (.int 2)
        [⟨.str (utf16 "a"), .str (utf16 "first"), .null, .null, .str (utf16 "chan"), .null, .null⟩,
          ⟨.str (utf16 "b"), .str (utf16 "xxx clip"), .null, .null, .null, .null, .null⟩,
          ⟨.str (utf16 "c"), .str (utf16 "third"), .null, .null, .str (utf16 "nsfw zone"), .null, .null⟩,
          ⟨.str (utf16 "d"), .str (utf16 "fourth"), .null, .null, .null, .null, .null⟩,
          ⟨.str (utf16 "e"), .str (utf16 "fifth"), .null, .null, .null, .null, .null⟩]
      = some ⟨2,
        [⟨.str (utf16 "a"), .str (utf16 "first"), .null, .null, .str (utf16 "chan"), .null, .null⟩,
          ⟨.str (utf16 "d"), .str (utf16 "fourth"), .null, .null, .null, .null, .null⟩]⟩ :=
  (C18_filter_then_truncate (fun _ => []) (fun text => text)
    [⟨.str (utf16 "a"), .str (utf16 "first"), .null, .null, .str (utf16 "chan"), .null, .null⟩,
      ⟨.str (utf16 "b"), .str (utf16 "xxx clip"), .null, .null, .null, .null, .null⟩,
      ⟨.str (utf16 "c"), .str (utf16 "third"), .null, .null, .str (utf16 "nsfw zone"), .null, .null⟩,
      ⟨.str (utf16 "d"), .str (utf16 "fourth"), .null, .null, .null, .null, .null⟩,
      ⟨.str (utf16 "e"), .str (utf16 "fifth"), .null, .null, .null, .null, .null⟩] 2
    (by
      intro v hv
      simp only [List.mem_cons, List.mem_singleton, List.not_mem_nil, or_false] at hv
      rcases hv with rfl | rfl | rfl | rfl | rfl <;> rfl)).1.trans rfl

theorem length_sliceTo_le (videos : List VideoRecord) (x : IntegralNumber)
    (h : ∀ n, x = .int n → 0 ≤ n) : (sliceTo videos (mathMin50 x)).length ≤ 50 := by
  cases x with
  | nan => simp [mathMin50, sliceTo]
  | negInf => simp [mathMin50, sliceTo]
  | posInf =>
    simp only [mathMin50, sliceTo]
    rw [if_neg (by omega), List.length_take]
    exact Nat.le_trans (Nat.min_le_left _ _) (by decide)
  | int n =>
    have hn := h n rfl
    simp only [mathMin50, sliceTo]
    rw [if_neg (by omega), List.length_take]
    have : (min 50 n).toNat ≤ 50 := by omega
    exact Nat.le_trans (Nat.min_le_left _ _) this

/-- C20 (failing input): `parseInt` returns -1 for `max=-1`; `Math.min(50, -1)` is -1 and
`slice(0, -1)` drops only the last record, so 52 extracted records give 51 results. In
general a negative value `n` keeps all but the last `|n|` records, while for `NaN` and
for every value that is not negative at most 50 records are returned. -/
theorem C20_negative_max_exceeds_fifty (numToString : JSNumber → List Nat)
    (toLowerCase : List Nat → List Nat) :
    (respond numToString toLowerCase false (mathMin50 (.int (-1)))
        (List.replicate 52 ⟨.str (utf16 "a"), .str (utf16 "t"), .null, .null, .null,
          .str (utf16 "https://www.youtube-nocookie.com/embed/a"),
          .str (utf16 "https://www.youtube.com/watch?v=a")⟩)).map
      (fun resp => (resp.count, resp.results.length)) = some (51, 51) ∧
    (∀ (videos : List VideoRecord) (n : Int), n < 0 →
      (respond numToString toLowerCase false (mathMin50 (.int n)) videos).map
        (fun resp => resp.results) = some (videos.take (videos.length - n.natAbs))) ∧
    (∀ (safe : Bool) (x : IntegralNumber) (videos : List VideoRecord) (resp : SearchResponse),
      (∀ n, x = .int n → 0 ≤ n) →
      respond numToString toLowerCase safe (mathMin50 x) videos = some resp →
      resp.results.length ≤ 50) := by
  refine ⟨rfl, ?_, ?_⟩
  · intro videos n hn
    simp only [respond, mathMin50, sliceTo, Bool.false_eq_true, if_false, Option.map_some']
    rw [if_pos (by omega)]
    have : (min 50 n).natAbs = n.natAbs := by
      rw [min_eq_right (by omega)]
    rw [this]
  · intro safe x videos resp hx hresp
    rw [respond] at hresp
    obtain ⟨vs, -, hvs⟩ := Option.map_eq_some'.mp hresp
    rw [← hvs]
    exact length_sliceTo_le vs x hx

end Server
